import Mathlib

/-!
Verification development for the educational database engine
(relational-algebra engine under `src/ra/`, transaction manager under
`src/tm/`).  Python classes are shallowly embedded as Lean structures and
their methods as pure functions; in-place mutation becomes explicit state
passing, Python `assert` failures and uncaught exceptions (KeyError,
IndexError, ValueError, NameError) become `Option.none` results.
Machine integers do not occur (Python has arbitrary precision), so `Nat`
and `Int` are used directly.
-/

namespace Spec2Proof

/-- Attribute values stored in relations.  `src/ra/relation.py` admits the
domains int, float and str; the claims under verification only exercise
int and str, therefore the embedding carries those two. -/
inductive Value where
  | int (i : Int)
  | str (s : String)
deriving DecidableEq, Repr

/-- Python equality `==` between two attribute values: values of different
types compare unequal (no error). -/
def Value.eqb : Value → Value → Bool
  | .int a, .int b => a == b
  | .str a, .str b => a == b
  | _, _ => false

/-- Python strict comparison `<` between two attribute values: comparing an
int with a str raises TypeError, embedded as `none`. -/
def Value.ltb : Value → Value → Option Bool
  | .int a, .int b => some (decide (a < b))
  | .str a, .str b => some (decide (a < b))
  | _, _ => none

/-- A tuple of a relation: the ordered list of its attribute values. -/
abbrev Tup := List Value

namespace RA

/-- Comparison operators admitted in selection / join predicates
(`src/ra/operators_log.py`, `comp_operators = ['==', '<=', '<', '>', '>=']`). -/
inductive CmpOp where
  | eq | lt | le | gt | ge
deriving DecidableEq, Repr

/-- One operand of a comparison: either an attribute reference (a name that
`eval` resolves against the tuple bindings) or a literal constant.  The
source keeps predicates as strings; the embedding keeps them parsed. -/
inductive Operand where
  | attr (name : String)
  | const (v : Value)
deriving DecidableEq, Repr

/-- A single comparison `lhs op rhs`. -/
structure Atom where
  lhs : Operand
  cmp : CmpOp
  rhs : Operand
deriving DecidableEq, Repr

/-- A predicate: the conjunction (Python `and`) of its atoms, evaluated
left to right with short-circuiting, as `eval` does
(`Selection.predicate` in `src/ra/operators_log.py`). -/
abbrev Pred := List Atom

/-- Locals dictionary used by `Selection._locals_dict`: looks an attribute
name up in `zip(attributes, tup)`; an unbound name is a NameError (`none`). -/
def lookupAttr (attrs : List String) (tup : Tup) (a : String) : Option Value :=
  (attrs.zip tup).lookup a

/-- Evaluates one operand against the tuple bindings. -/
def evalOperand (attrs : List String) (tup : Tup) : Operand → Option Value
  | .attr a => lookupAttr attrs tup a
  | .const v => some v

/-- Evaluates one comparison atom the way Python `eval` does: `==` never
errors across types, the order comparisons do. -/
def evalAtom (attrs : List String) (tup : Tup) (a : Atom) : Option Bool := do
  let l ← evalOperand attrs tup a.lhs
  let r ← evalOperand attrs tup a.rhs
  match a.cmp with
  | .eq => some (Value.eqb l r)
  | .lt => Value.ltb l r
  | .le => do let b ← Value.ltb l r; some (b || Value.eqb l r)
  | .gt => Value.ltb r l
  | .ge => do let b ← Value.ltb r l; some (b || Value.eqb l r)

/-- Evaluates a conjunction with Python short-circuiting: once an atom is
false the remaining atoms are not evaluated. -/
def evalPred (attrs : List String) (tup : Tup) : Pred → Option Bool
  | [] => some true
  | a :: rest => do
      let b ← evalAtom attrs tup a
      if b then evalPred attrs tup rest else some false

/-- Attribute names referenced by a predicate, in textual order (both
operand positions, as the string splitting in
`Selection.get_attributes_in_predicate` finds both sides). -/
def predAttrRefs : Pred → List String
  | [] => []
  | a :: rest =>
      (match a.lhs with | .attr n => [n] | .const _ => []) ++
      (match a.rhs with | .attr n => [n] | .const _ => []) ++
      predAttrRefs rest

/-- Keeps the first occurrence of every element (the set that the source
builds, represented as an ordered duplicate-free list). -/
def dedupKeepFirst : List String → List String
  | [] => []
  | a :: rest => a :: (dedupKeepFirst rest).filter (fun b => b ≠ a)

/-- Embeds `Selection.get_attributes_in_predicate`: the set of predicate
attribute references that belong to the operator schema (`has_attribute`
filters out everything else, constants in particular). -/
def attrsInPred (p : Pred) (schema : List String) : List String :=
  dedupKeepFirst ((predAttrRefs p).filter (fun a => a ∈ schema))

/-- A relation (`src/ra/relation.py`): attribute names, the set of tuples
(kept as a duplicate-free list in some set-iteration order), and the
attributes that carry a secondary index (`Relation.indexes` keys; the claims
only consult index existence via `has_index_on`).  The display name and the
domain list play no role in any claim and are omitted. -/
structure Relation where
  attrs : List String
  tuples : List Tup
  indexedAttrs : List String := []
deriving DecidableEq, Repr

/-- Adds tuples one by one the way `Relation.add_tuple` does: a tuple equal
to one already present is dropped. -/
def addTuples (base : List Tup) (new : List Tup) : List Tup :=
  new.foldl (fun acc t => if t ∈ acc then acc else acc ++ [t]) base

/-- Filters a list with an `Option`-valued predicate, propagating the first
error (a crashing `eval` crashes the whole evaluation). -/
def filterOpt (p : α → Option Bool) : List α → Option (List α)
  | [] => some []
  | x :: rest => do
      let b ← p x
      let tail ← filterOpt p rest
      some (if b then x :: tail else tail)

/-- Operator trees (`src/ra/operators_log.py`, `src/ra/operators_phys.py`).
The embedding covers the fragment the claims exercise: leaves, logical and
physical selections and projections, cartesian products and theta joins.
`selection`/`projection`/`cartesian`/`thetaJoin` are the logical variants;
`selectionScan`, `selectionIndex` and `projectionScan` the physical ones
(`isinstance` against the logical class also matches the physical
subclasses, which the traversal functions below reproduce). -/
inductive Op where
  | leaf (rel : Relation)
  | selection (pred : Pred) (child : Op)
  | projection (attrs : List String) (child : Op)
  | selectionScan (pred : Pred) (child : Op)
  | selectionIndex (pred : Pred) (child : Op)
  | projectionScan (attrs : List String) (child : Op)
  | cartesian (l r : Op)
  | thetaJoin (theta : Pred) (l r : Op)
deriving DecidableEq, Repr

/-- Python `isinstance(op, Selection)` (matches the physical subclasses too). -/
def Op.isSelection : Op → Bool
  | .selection _ _ | .selectionScan _ _ | .selectionIndex _ _ => true
  | _ => false

/-- Python `isinstance(op, Projection)` (matches the physical subclass too). -/
def Op.isProjection : Op → Bool
  | .projection _ _ | .projectionScan _ _ => true
  | _ => false

/-- Attribute names of the schema an operator produces (`get_schema`
projected to names; domains are irrelevant to every claim). -/
def Op.attrNames : Op → List String
  | .leaf rel => rel.attrs
  | .selection _ c | .selectionScan _ c | .selectionIndex _ c => c.attrNames
  | .projection attrs _ | .projectionScan attrs _ => attrs
  | .cartesian l r => l.attrNames ++ r.attrNames
  | .thetaJoin _ l r => l.attrNames ++ r.attrNames

/-- Python `op.has_attribute(a)`. -/
def Op.hasAttr (op : Op) (a : String) : Bool := a ∈ op.attrNames

/-- Evaluates a plan, materializing a relation bottom-up exactly as the
physical operators do (`evaluate` in `src/ra/operators_phys.py`).  A logical
Selection or Projection is evaluated like its scan-based physical
counterpart, whose `evaluate` implements precisely the logical semantics
(`Selection_IndexBased.evaluate` also scans, see its docstring); this is the
reading under which the spec speaks of evaluating a logical plan.  `none`
embeds a Python error (failed schema assertion or crashing `eval`). -/
def evalOp : Op → Option Relation
  | .leaf rel => some rel
  | .selection p c | .selectionScan p c | .selectionIndex p c => do
      let r ← evalOp c
      let ts ← filterOpt (fun t => evalPred r.attrs t p) r.tuples
      some { attrs := r.attrs, tuples := addTuples [] ts }
  | .projection attrs c | .projectionScan attrs c => do
      let r ← evalOp c
      let idxs ← attrs.mapM (fun a => r.attrs.indexOf? a)
      let ts := r.tuples.map (fun t => idxs.map (fun i => t.getD i (Value.int 0)))
      some { attrs := attrs, tuples := addTuples [] ts }
  | .cartesian l r => do
      let lr ← evalOp l
      let rr ← evalOp r
      if (lr.attrs.filter (fun a => a ∈ rr.attrs)) = [] then
        some { attrs := lr.attrs ++ rr.attrs,
               tuples := addTuples [] (lr.tuples.flatMap (fun t1 => rr.tuples.map (fun t2 => t1 ++ t2))) }
      else none
  | .thetaJoin theta l r => do
      let lr ← evalOp l
      let rr ← evalOp r
      if (lr.attrs.filter (fun a => a ∈ rr.attrs)) = [] then do
        let cross := lr.tuples.flatMap (fun t1 => rr.tuples.map (fun t2 => t1 ++ t2))
        let ts ← filterOpt (fun t => evalPred (lr.attrs ++ rr.attrs) t theta) cross
        some { attrs := lr.attrs ++ rr.attrs, tuples := addTuples [] ts }
      else none

/-! ### Rewrite rule 4: InsertProjection (`src/ra/rules_log.py`) -/

/-- Boolean set equality of two attribute lists (the source compares Python
sets with `==`). -/
def setEqB (a b : List String) : Bool :=
  a.all (fun x => x ∈ b) && b.all (fun x => x ∈ a)

/-- Embeds `InsertProjection._get_required_attributes`: a selection or theta
join requires its predicate attributes, a projection the attributes it
projects on, every other operator nothing. -/
def requiredOfNode (op : Op) : List String :=
  match op with
  | .selection p _ | .selectionScan p _ | .selectionIndex p _ =>
      attrsInPred p op.attrNames
  | .projection attrs _ | .projectionScan attrs _ => dedupKeepFirst attrs
  | .thetaJoin theta _ _ => attrsInPred theta op.attrNames
  | _ => []

/-- Embeds the traversal of `InsertProjection`.  `_annotate_node` gives a
node the requirement set `(parent.required ∩ op.attributes) ∪ ownRequired`;
`_match` succeeds on a non-root node whose parent is not a projection,
unless (for an inner node) the attributes the node provides to its parent
coincide with what its child(ren) would provide to it; `_modify` then puts
a projection on the provided attributes between parent and node, marking it
so that the traversal continues below without rematching.  The imperative
annotate-then-mutate pass becomes one top-down recursion: `parentReq` is
the (already computed) requirement set of the original parent and
`parentIsProj` records whether the effective parent is a projection (true
in particular just below a freshly inserted one). -/
def insertProj (parentReq : List String) (parentIsProj : Bool) (op : Op) : Op :=
  let prov := parentReq.filter (fun a => op.hasAttr a)
  let req := dedupKeepFirst (prov ++ requiredOfNode op)
  let rebuilt : Op :=
    match op with
    | .leaf rel => .leaf rel
    | .selection p c => .selection p (insertProj req false c)
    | .selectionScan p c => .selectionScan p (insertProj req false c)
    | .selectionIndex p c => .selectionIndex p (insertProj req false c)
    | .projection attrs c => .projection attrs (insertProj req true c)
    | .projectionScan attrs c => .projectionScan attrs (insertProj req true c)
    | .cartesian l r => .cartesian (insertProj req false l) (insertProj req false r)
    | .thetaJoin th l r => .thetaJoin th (insertProj req false l) (insertProj req false r)
  let skip : Bool :=
    parentIsProj ||
    (match op with
     | .selection _ c | .selectionScan _ c | .selectionIndex _ c
     | .projection _ c | .projectionScan _ c =>
         setEqB prov (req.filter (fun a => c.hasAttr a))
     | .cartesian l r | .thetaJoin _ l r =>
         setEqB prov (req.filter (fun a => l.hasAttr a)) &&
         setEqB (req.filter (fun a => l.hasAttr a)) (req.filter (fun a => r.hasAttr a))
     | .leaf _ => false)
  if skip then rebuilt else Op.projection prov rebuilt

/-- Runs the InsertProjection rule on a whole plan.  The root is annotated
with only its own required attributes (`_annotate_node` with
`parent is None`) and is itself never matched (`_match` demands a parent);
its children are processed with the root requirement set. -/
def insertProjections (root : Op) : Op :=
  let req := requiredOfNode root
  match root with
  | .leaf rel => .leaf rel
  | .selection p c => .selection p (insertProj req false c)
  | .selectionScan p c => .selectionScan p (insertProj req false c)
  | .selectionIndex p c => .selectionIndex p (insertProj req false c)
  | .projection attrs c => .projection attrs (insertProj req true c)
  | .projectionScan attrs c => .projectionScan attrs (insertProj req true c)
  | .cartesian l r => .cartesian (insertProj req false l) (insertProj req false r)
  | .thetaJoin th l r => .thetaJoin th (insertProj req false l) (insertProj req false r)

/-! ### Secondary index (`class Index` in `src/ra/relation.py`) -/

/-- Value comparison used for sorting keys; `getD false` is unreachable for
homogeneously typed keys (mixed keys would raise in Python). -/
def vltBool (a b : Value) : Bool := (Value.ltb a b).getD false

/-- Non-strict key comparison. -/
def vleBool (a b : Value) : Bool := vltBool a b || Value.eqb a b

/-- Stable insertion used to model the stable Python sort. -/
def insertSorted (le : α → α → Bool) (x : α) : List α → List α
  | [] => [x]
  | y :: ys => if le x y then x :: y :: ys else y :: insertSorted le x ys

/-- Stable sort (insertion sort; Python `list.sort` is stable, and only
stability and sortedness matter to the index). -/
def sortStable (le : α → α → Bool) : List α → List α
  | [] => []
  | x :: xs => insertSorted le x (sortStable le xs)

/-- The secondary index: `(key, tuple)` pairs sorted by key, plus the
parallel key vector (`Index.__init__`). -/
structure Index where
  data : List (Value × Tup)
  keys : List Value
deriving Repr

/-- Builds the index from a relation and the position of the indexed
attribute (`Index.__init__` collects `(t[attribute_index], t)` in set
iteration order — here the list order — and stable-sorts by key). -/
def Index.ofRelation (rel : Relation) (attrIdx : Nat) : Index :=
  let pairs := rel.tuples.map (fun t => (t.getD attrIdx (Value.int 0), t))
  let sorted := sortStable (fun a b => vleBool a.1 b.1) pairs
  { data := sorted, keys := sorted.map (fun kt => kt.1) }

/-- Embeds `bisect.bisect_left` on the key vector: the classic halving loop
(`a.getD` stands for the always-in-range `a[mid]`).  The `fuel` argument
only bounds the recursion so that the definition is structural and
kernel-computable; `hi - lo` shrinks at every step, so any fuel of at least
`hi - lo` steps never runs out. -/
def bisectLeftAux (a : List Value) (x : Value) : Nat → Nat → Nat → Nat
  | 0, lo, _ => lo
  | fuel + 1, lo, hi =>
      if lo < hi then
        let mid := (lo + hi) / 2
        if vltBool (a.getD mid (Value.int 0)) x then bisectLeftAux a x fuel (mid + 1) hi
        else bisectLeftAux a x fuel lo mid
      else lo

/-- Runs the bisection over the whole vector with sufficient fuel. -/
def bisectLeft (a : List Value) (x : Value) : Nat :=
  bisectLeftAux a x (a.length + 1) 0 a.length

/-- Embeds `Index.index`: leftmost position whose key equals `x`, or `none`
(the Python method returns `None`); the `i != len(a)` test short-circuits
before `a[i]` is read. -/
def Index.index (a : List Value) (x : Value) : Option Nat :=
  let i := bisectLeft a x
  if i ≠ a.length ∧ Value.eqb (a.getD i (Value.int 0)) x then some i else none

/-- Embeds the forward scan of the `==` branch of `Index.get`.  The loop
condition reads `self.data[i][0] == key and i < len(self.data)` — the
subscript is evaluated first, so running past the end raises IndexError,
embedded as `none`.  The structural `fuel` bounds the recursion; the scan
advances `i` every step, so fuel of at least `data.length + 1` cannot run
out before the loop stops or crashes. -/
def Index.getEqAux (data : List (Value × Tup)) (key : Value) :
    Nat → Nat → List Tup → Option (List Tup)
  | 0, _, _ => none
  | fuel + 1, i, acc =>
      match data[i]? with
      | none => none
      | some kt =>
          if Value.eqb kt.1 key then
            Index.getEqAux data key fuel (i + 1) (acc ++ [kt.2])
          else some acc

/-- Embeds the `comp_operator is operator.eq` branch of `Index.get`:
binary-search the leftmost equal key, then scan forward while equal. -/
def Index.getEq (idx : Index) (key : Value) : Option (List Tup) :=
  match Index.index idx.keys key with
  | none => some []
  | some i => Index.getEqAux idx.data key (idx.data.length + 1) i []

/-! ### CompileSelectionIndex (`src/ra/rules_phys.py`) -/

/-- Embeds the descent loop of `CompileSelectionIndex._match`: starting
below the matched selection, only projections and selections may occur on
the way to the leaf relation. -/
def pathOkToLeaf : Op → Option Relation
  | .leaf rel => some rel
  | .selection _ c | .selectionScan _ c | .selectionIndex _ c => pathOkToLeaf c
  | .projection _ c | .projectionScan _ c => pathOkToLeaf c
  | .cartesian _ _ | .thetaJoin _ _ _ => none

/-- Embeds `CompileSelectionIndex._match`: a logical selection whose
predicate references at most one attribute, whose descendants down to the
leaf are only projections and selections, and whose leaf relation carries
an index on one of the referenced attributes. -/
def CSI_match : Op → Bool
  | .selection p c =>
      if (attrsInPred p c.attrNames).length > 1 then false
      else
        match pathOkToLeaf c with
        | none => false
        | some rel => (attrsInPred p c.attrNames).any (fun a => a ∈ rel.indexedAttrs)
  | _ => false

/-- Collects the selections on the path to the leaf (step 1 of
`CompileSelectionIndex._modify`) together with the schema names visible at
each selection, plus the leaf relation; `none` embeds the crash the Python
walk would produce on a node without a single `input`. -/
def selsAndLeaf : Op → Option (List (Pred × List String) × Relation)
  | .leaf rel => some ([], rel)
  | .selection p c => do
      let (sels, rel) ← selsAndLeaf c
      some ((p, c.attrNames) :: sels, rel)
  | .selectionScan p c => do
      let (sels, rel) ← selsAndLeaf c
      some ((p, c.attrNames) :: sels, rel)
  | .selectionIndex p c => do
      let (sels, rel) ← selsAndLeaf c
      some ((p, c.attrNames) :: sels, rel)
  | .projection _ c | .projectionScan _ c => selsAndLeaf c
  | .cartesian _ _ | .thetaJoin _ _ _ => none

/-- Embeds `Selection_IndexBased(leaf, pred).estimatedResultSize()`: the
cardinality of evaluating the selection over the leaf relation by scan. -/
def estSize (rel : Relation) (p : Pred) : Option Nat := do
  let ts ← filterOpt (fun t => evalPred rel.attrs t p) rel.tuples
  some (addTuples [] ts).length

/-- Step 2 of `_modify`: the selections (kept with their position in the
collected list, standing for Python object identity) that could use an
index, i.e. those with a leaf index on some attribute of their predicate. -/
def candidatesOf (rel : Relation) (sels : List (Pred × List String)) :
    List (Nat × Pred) :=
  ((sels.enum).filter
      (fun ip => (attrsInPred ip.2.1 ip.2.2).any (fun a => a ∈ rel.indexedAttrs))).map
    (fun ip => (ip.1, ip.2.1))

/-- Step 3 of `_modify`: the running-minimum loop over the candidates,
updating only on a strictly smaller estimate, starting from the leaf
cardinality with no selection picked.  The outer `Option` is an estimation
crash, the inner one the `picked_sel` variable (still `None` when no
estimate beat the initial bound). -/
def pickLoop (rel : Relation) : List (Nat × Pred) → Nat → Option Nat →
    Option (Option Nat)
  | [], _, picked => some picked
  | (i, p) :: rest, minSize, picked => do
      let size ← estSize rel p
      if size < minSize then pickLoop rel rest size (some i)
      else pickLoop rel rest minSize picked

/-- Embeds `CompileSelectionIndex._modify` on the matched selection: pick
the candidate with the smallest estimated result (`selections.index(None)`
raises ValueError when nothing beat the leaf cardinality — `none`), make it
an index-based selection directly over the leaf and stack the remaining
selections above it as scan-based selections, in ascending collection
order; the replacement spans everything from the matched selection down to
the leaf, so intermediate projections disappear. -/
def CSI_modify (op : Op) : Option Op :=
  match op with
  | .selection p c => do
      let (selsTail, rel) ← selsAndLeaf c
      let sels := (p, c.attrNames) :: selsTail
      let cands := candidatesOf rel sels
      if cands = [] then none
      else do
        let picked? ← pickLoop rel cands rel.tuples.length none
        match picked? with
        | none => none
        | some k => do
            let pp ← sels[k]?
            some ((sels.enum.filter (fun ip => ip.1 ≠ k)).foldl
              (fun acc ip => Op.selectionScan ip.2.1 acc)
              (Op.selectionIndex pp.1 (Op.leaf rel)))
  | _ => none

end RA

namespace TM

/-! ### Enums (`src/tm/enum.py`) -/

/-- Isolation levels offered by the transaction module. -/
inductive IsolationLevel where
  | serializable
  | read_committed
  | read_uncommitted
  | repeatable_reads
  | snapshot_isolation
deriving DecidableEq, Repr

/-- Status of a transaction; terminal states are never left. -/
inductive TransactionStatus where
  | running
  | aborted
  | committed
deriving DecidableEq, Repr

/-- Lock key `(table_name, row_id)`; the row component is an integer so the
initial `last_lock_id` sentinel `('', -1)` is representable. -/
abbrev Key := String × Int

/-- Lexicographic comparison of character lists by code point (Python
string `<`). -/
def charListLt : List Char → List Char → Bool
  | [], [] => false
  | [], _ :: _ => true
  | _ :: _, [] => false
  | c :: cs, d :: ds =>
      if c.toNat < d.toNat then true
      else if c.toNat = d.toNat then charListLt cs ds else false

/-- Python string comparison `<` (lexicographic by code point). -/
def strLtB (a b : String) : Bool := charListLt a.data b.data

/-- Python tuple comparison `<` on lock keys: lexicographic by table name,
then row id. -/
def keyLtB (a b : Key) : Bool :=
  strLtB a.1 b.1 || (a.1 == b.1 && decide (a.2 < b.2))

/-! ### Association-list helpers standing for Python dicts
(insertion-ordered, unique keys). -/

/-- Python `d[k] = v`: replace the entry if the key is present, otherwise
append it. -/
def assocSet [BEq κ] (l : List (κ × β)) (k : κ) (v : β) : List (κ × β) :=
  if l.any (fun kv => kv.1 == k) then
    l.map (fun kv => if kv.1 == k then (k, v) else kv)
  else l ++ [(k, v)]

/-- Python `del d[k]`. -/
def assocErase [BEq κ] (l : List (κ × β)) (k : κ) : List (κ × β) :=
  l.filter (fun kv => ¬ kv.1 == k)

/-- Applies an update to the entry at `k` in place (the Python idiom
`d[k].method()` on a shared object); a missing key is left alone — the
source would raise KeyError, which no reachable call does. -/
def assocAdjust [BEq κ] (l : List (κ × β)) (k : κ) (f : β → β) : List (κ × β) :=
  l.map (fun kv => if kv.1 == k then (kv.1, f kv.2) else kv)

/-- Adds an element to a Python set represented as a duplicate-free list. -/
def listInsert [DecidableEq κ] (l : List κ) (k : κ) : List κ :=
  if k ∈ l then l else l ++ [k]

/-- Python `set.isdisjoint`. -/
def listDisjoint [BEq κ] (a b : List κ) : Bool :=
  a.all (fun x => ¬ b.contains x)

/-! ### Table (`src/tm/table.py`) -/

/-- A row-id addressed, optionally multi-versioned table.  `attrs` is the
full attribute list (reserved attributes first, as `add_table` prepends
them); `tuples` holds one version chain per row id; `deleted_row_ids` is
the free list.  The pretty-printing machinery and the domains carry no
claim content and are omitted. -/
structure Table (α : Type) where
  attrs : List String
  tuples : List (List α) := []
  deleted_row_ids : List Nat := []
  use_multiversion : Bool := false

/-- Embeds `Table.get`: the version chain of a row, `[]` when the id is out
of range (the source also returns `[]` for a negative id, which a `Nat`
cannot be). -/
def Table.get (t : Table α) (rowid : Nat) : List α :=
  t.tuples.getD rowid []

/-- Embeds `Table.put`: place the row at the chain indexed by its own
row id (extracted by `rowIdOf`, standing for the `row[rowid_index]`
lookup); single-version tables replace the chain, multi-version tables
append.  `none` embeds the failure of the source assertion
`0 <= row_id < len(self.tuples)` (or a malformed row id). -/
def Table.put (rowIdOf : α → Option Nat) (t : Table α) (row : α) :
    Option (Table α) := do
  let rid ← rowIdOf row
  let chain := if t.use_multiversion then t.tuples.getD rid [] ++ [row] else [row]
  if rid < t.tuples.length then
    some { t with tuples := t.tuples.set rid chain }
  else none

/-- Embeds `Table.get_next_row_id`: pop the most recently freed id from the
free list (`list.pop()` takes the last element) if any, otherwise append a
fresh empty chain and return its index. -/
def Table.get_next_row_id (t : Table α) : Nat × Table α :=
  match t.deleted_row_ids.getLast? with
  | some rid => (rid, { t with deleted_row_ids := t.deleted_row_ids.dropLast })
  | none => (t.tuples.length, { t with tuples := t.tuples ++ [[]] })

/-- Embeds `Table.delete`: empty the chain unless the id is already in the
free list.  Nothing is ever added to `deleted_row_ids`.  `none` embeds the
failure of the range assertion. -/
def Table.delete (t : Table α) (rowid : Nat) : Option (Table α) :=
  if rowid < t.tuples.length then
    some (if rowid ∈ t.deleted_row_ids then t
          else { t with tuples := t.tuples.set rowid [] })
  else none

/-- Total variant of `Table.put` used inside rollback, where the restored
pre-image always indexes an existing chain (the source assertion holds in
every reachable rollback); an out-of-range or malformed row leaves the
table unchanged instead of crashing. -/
def Table.putT (rowIdOf : α → Option Nat) (t : Table α) (row : α) : Table α :=
  match Table.put rowIdOf t row with
  | some t2 => t2
  | none => t

/-- Total variant of `Table.delete` used inside rollback (same reachable
in-range argument). -/
def Table.deleteT (t : Table α) (rowid : Nat) : Table α :=
  match Table.delete t rowid with
  | some t2 => t2
  | none => t

/-! ### DummyRWLock (`src/tm/dummy_rw_lock.py`) -/

/-- The advisory single-writer / multiple-readers lock record. -/
structure DummyRWLock where
  readers : Nat := 0
  active_writer : Bool := false
  requestor : Option Nat := none
deriving DecidableEq, Repr

/-- Embeds `try_acquire_read`: succeeds iff no writer is active. -/
def DummyRWLock.try_acquire_read (l : DummyRWLock) :
    (String × Bool) × DummyRWLock :=
  if ¬ l.active_writer then
    (("read_lock_acquired", true), { l with readers := l.readers + 1 })
  else (("write_lock_already_held", false), l)

/-- Embeds `try_acquire_write`: succeeds iff no writer and no readers. -/
def DummyRWLock.try_acquire_write (l : DummyRWLock) :
    (String × Bool) × DummyRWLock :=
  if l.active_writer then (("write_lock_already_held", false), l)
  else if l.readers ≠ 0 then (("read_lock_already_held", false), l)
  else (("write_lock_acquired", true), { l with active_writer := true })

/-- Embeds `release_read_lock` (which returns Python `None`, a fact the
callers' `== 0` comparison silently depends on). -/
def DummyRWLock.release_read_lock (l : DummyRWLock) : DummyRWLock :=
  if l.readers > 0 then { l with readers := l.readers - 1 } else l

/-- Embeds `release_write_lock`. -/
def DummyRWLock.release_write_lock (l : DummyRWLock) : DummyRWLock :=
  if l.active_writer then { l with active_writer := false, requestor := none }
  else l

/-- Embeds `wait_for_write`: records a single pending writer. -/
def DummyRWLock.wait_for_write (l : DummyRWLock) (req : Nat) :
    Bool × DummyRWLock :=
  if l.requestor = none ∨ l.requestor = some req then
    (true, { l with requestor := some req })
  else (false, l)

/-! ### SVLockBasedTransaction (`src/tm/transaction.py`) -/

/-- Single-version lock-based transaction state.  The shared `table_dict`
and `global_lock_dict` references of the Python object become fields that
every operation threads through.  Rows are raw value tuples whose first
component is the `row_id` attribute prepended by `add_table`. -/
structure SVLockBasedTransaction where
  tx_id : Nat
  isolation_level : IsolationLevel
  status : TransactionStatus := .running
  table_dict : List (String × Table (List Value))
  global_lock_dict : List (Key × DummyRWLock) := []
  read_lock_list_local : List Key := []
  write_lock_list_local : List Key := []
  local_reads : List (Key × List Value) := []
  last_lock_id : Key := ("", -1)
  original_row : List (Key × List Value) := []

/-- Extracts the row id of a single-version row (attribute `row_id` sits at
position 0 of the schema built by `add_table`). -/
def svRowId (row : List Value) : Option Nat :=
  match row.head? with
  | some (Value.int i) => if 0 ≤ i then some i.toNat else none
  | _ => none

/-- Embeds `Table.dict_to_tuple`: writes each update-dictionary entry into
the position of the equally named attribute; an unknown attribute name
yields Python `None` (here `none`), which the caller turns into a crash or
an abort. -/
def dictToTuple (attrs : List String) (upd : List (String × Value))
    (oldRow : List Value) : Option (List Value) :=
  upd.foldlM
    (fun row kv =>
      match attrs.indexOf? kv.1 with
      | some i => some (row.set i kv.2)
      | none => none)
    oldRow

/-- Embeds `SVLockBasedTransaction.rollback`: release every read lock (the
source compares the `None` returned by `release_read_lock` with `0`, so the
dictionary entry is never deleted), restore the saved pre-image of every
write-locked row (or delete the row it had freshly inserted), then release
and delete every write lock, and mark the transaction aborted. -/
def SVLockBasedTransaction.rollback (tx : SVLockBasedTransaction) :
    SVLockBasedTransaction :=
  if tx.status = .running then
    let locks1 := tx.read_lock_list_local.foldl
      (fun ld k => assocAdjust ld k DummyRWLock.release_read_lock)
      tx.global_lock_dict
    let tables1 := tx.write_lock_list_local.foldl
      (fun td k =>
        match tx.original_row.lookup k with
        | some row => assocAdjust td k.1 (fun t => t.putT svRowId row)
        | none => assocAdjust td k.1 (fun t => t.deleteT k.2.toNat))
      tx.table_dict
    let locks2 := tx.write_lock_list_local.foldl
      (fun ld k => assocErase (assocAdjust ld k DummyRWLock.release_write_lock) k)
      locks1
    { tx with status := .aborted, global_lock_dict := locks2,
              table_dict := tables1 }
  else tx

/-- Embeds `SVLockBasedTransaction.commit`: release all locks (read-lock
entries again survive because of the `None == 0` comparison, write-lock
entries are deleted) and mark the transaction committed; a terminated
transaction returns `False`. -/
def SVLockBasedTransaction.commit (tx : SVLockBasedTransaction) :
    Bool × SVLockBasedTransaction :=
  if tx.status = .running then
    let locks1 := tx.read_lock_list_local.foldl
      (fun ld k => assocAdjust ld k DummyRWLock.release_read_lock)
      tx.global_lock_dict
    let locks2 := tx.write_lock_list_local.foldl
      (fun ld k => assocErase (assocAdjust ld k DummyRWLock.release_write_lock) k)
      locks1
    (true, { tx with status := .committed, global_lock_dict := locks2 })
  else (false, tx)

/-- The failure message of the lock-ordering deadlock-avoidance check. -/
def lockOrderMsg : String := "deadlock_avoided: lock-order incorrect"

/-- Embeds `_read_lock_acquire`: a key below `last_lock_id` rolls the
transaction back; a key already locked locally succeeds immediately;
otherwise the global lock (created on demand) is tried, and on success
`last_lock_id` advances and the key joins the local read-lock list. -/
def SVLockBasedTransaction.read_lock_acquire (tx : SVLockBasedTransaction)
    (k : Key) : (String × Bool) × SVLockBasedTransaction :=
  if keyLtB k tx.last_lock_id then ((lockOrderMsg, false), tx.rollback)
  else if k ∈ tx.read_lock_list_local then (("read_lock_acquired", true), tx)
  else if k ∈ tx.write_lock_list_local then (("read_lock_acquired", true), tx)
  else
    match tx.global_lock_dict.lookup k with
    | some lock =>
        let (ms, lock2) := lock.try_acquire_read
        let tx2 := { tx with
          global_lock_dict := assocAdjust tx.global_lock_dict k (fun _ => lock2) }
        if ms.2 then
          (ms, { tx2 with last_lock_id := k,
                          read_lock_list_local := tx2.read_lock_list_local ++ [k] })
        else (ms, tx2)
    | none =>
        let (ms, lock2) := DummyRWLock.try_acquire_read {}
        if ms.2 then
          (ms, { tx with
            global_lock_dict := tx.global_lock_dict ++ [(k, lock2)],
            last_lock_id := k,
            read_lock_list_local := tx.read_lock_list_local ++ [k] })
        else (ms, tx)

/-- Embeds `_write_lock_acquire`.  A key below `last_lock_id` rolls back; a
held write lock succeeds; a held read lock is upgraded (release read, try
write; on failure re-acquire the read lock and register as pending writer,
rolling back when another writer is already pending); otherwise the global
lock, created on demand, is tried directly (and only the already-existing
branch advances `last_lock_id`, as in the source).  The outer `Option`
embeds the KeyError of the upgrade path when the dictionary lacks the key
of a held read lock (unreachable in reachable states). -/
def SVLockBasedTransaction.write_lock_acquire (tx : SVLockBasedTransaction)
    (k : Key) : Option ((String × Bool) × SVLockBasedTransaction) :=
  if keyLtB k tx.last_lock_id then some ((lockOrderMsg, false), tx.rollback)
  else if k ∈ tx.write_lock_list_local then
    some (("write_lock_acquired", true), tx)
  else if k ∈ tx.read_lock_list_local then do
    let lock ← tx.global_lock_dict.lookup k
    let lock := lock.release_read_lock
    let (ms, lock2) := lock.try_acquire_write
    if ms.2 then
      some (("write_lock_acquired", true),
        { tx with
          global_lock_dict := assocAdjust tx.global_lock_dict k (fun _ => lock2),
          read_lock_list_local := tx.read_lock_list_local.erase k,
          write_lock_list_local := tx.write_lock_list_local ++ [k] })
    else
      let (_, lock3) := lock2.try_acquire_read
      let (w, lock4) := lock3.wait_for_write tx.tx_id
      let tx2 := { tx with
        global_lock_dict := assocAdjust tx.global_lock_dict k (fun _ => lock4) }
      if w then some (("write_lock_acquire_failed", false), tx2)
      else some (("transaction_aborted", false), tx2.rollback)
  else
    match tx.global_lock_dict.lookup k with
    | none =>
        let (ms, lock2) := DummyRWLock.try_acquire_write {}
        if ms.2 then
          some (ms, { tx with
            global_lock_dict := tx.global_lock_dict ++ [(k, lock2)],
            write_lock_list_local := tx.write_lock_list_local ++ [k] })
        else some (ms, tx)
    | some lock =>
        let (ms, lock2) := lock.try_acquire_write
        let tx2 := { tx with
          global_lock_dict := assocAdjust tx.global_lock_dict k (fun _ => lock2) }
        if ms.2 then
          some (ms, { tx2 with
            write_lock_list_local := tx2.write_lock_list_local ++ [k],
            last_lock_id := k })
        else some (ms, tx2)

/-- Result triple returned by the single-version read paths. -/
abbrev SVReadRes := String × Bool × Option (List Value)

/-- Embeds `_read_READ_UNCOMMITED`: no locks, latest version. -/
def SVLockBasedTransaction.read_RU (tx : SVLockBasedTransaction)
    (tname : String) (rowid : Nat) : Option (SVReadRes × SVLockBasedTransaction) := do
  let table ← tx.table_dict.lookup tname
  match (table.get rowid).getLast? with
  | some row => some (("row_found", true, some row), tx)
  | none => some (("row_not_found", false, none), tx)

/-- Embeds `_read_READ_COMMITTED`: acquire the read lock, read the latest
version and — when `release_lock` holds — release the read lock again
immediately (`last_lock_id` is not touched by the release).  A failed
acquire propagates its message (after a lock-order rollback the returned
state is the rolled-back one); a missing row keeps the lock. -/
def SVLockBasedTransaction.read_RC (tx : SVLockBasedTransaction)
    (tname : String) (rowid : Nat) (release_lock : Bool) :
    Option (SVReadRes × SVLockBasedTransaction) := do
  let table ← tx.table_dict.lookup tname
  let k : Key := (tname, (rowid : Int))
  let (ms, tx2) := tx.read_lock_acquire k
  if ¬ ms.2 then some ((ms.1, false, none), tx2)
  else
    match (table.get rowid).getLast? with
    | some row =>
        let tx3 :=
          if release_lock then
            { tx2 with
              global_lock_dict :=
                assocAdjust tx2.global_lock_dict k DummyRWLock.release_read_lock,
              read_lock_list_local := tx2.read_lock_list_local.erase k }
          else tx2
        some (("row_found", true, some row), tx3)
    | none => some (("row_not_found", false, none), tx2)

/-- Embeds `_read_REPEATABLE_READS`: answer from the local read cache when
possible, otherwise read as read-committed and cache the result. -/
def SVLockBasedTransaction.read_RR (tx : SVLockBasedTransaction)
    (tname : String) (rowid : Nat) (release_lock : Bool) :
    Option (SVReadRes × SVLockBasedTransaction) := do
  let k : Key := (tname, (rowid : Int))
  match tx.local_reads.lookup k with
  | some cached => some (("row_found", true, some cached), tx)
  | none =>
      let (res, tx2) ← tx.read_RC tname rowid release_lock
      match res with
      | (m, false, _) => some ((m, false, none), tx2)
      | (_, true, some row) =>
          some (("row_found", true, some row),
            { tx2 with local_reads := tx2.local_reads ++ [(k, row)] })
      | (m, true, none) => some ((m, true, none), tx2)

/-- Embeds `SVLockBasedTransaction.read`: dispatch on the isolation level
(repeatable reads shares the serializable path, which keeps read locks by
calling the repeatable-reads path without release).  `none` embeds the
assertion failures on a terminated transaction or an unknown table. -/
def SVLockBasedTransaction.read (tx : SVLockBasedTransaction)
    (tname : String) (rowid : Nat) : Option (SVReadRes × SVLockBasedTransaction) :=
  if tx.status ≠ .running then none
  else if (tx.table_dict.lookup tname).isNone then none
  else
    match tx.isolation_level with
    | .read_uncommitted => tx.read_RU tname rowid
    | .read_committed => tx.read_RC tname rowid true
    | _ => tx.read_RR tname rowid false

/-- Embeds `SVLockBasedTransaction.update`: acquire the write lock, save
the pre-image once per key, write the mutated row in place.  The source
stores `rowid` into the update dictionary before the success test. -/
def SVLockBasedTransaction.update (tx : SVLockBasedTransaction)
    (tname : String) (rowid : Nat) (upd : List (String × Value)) :
    Option (SVReadRes × SVLockBasedTransaction) := do
  if tx.status ≠ .running then none else do
  let _ ← tx.table_dict.lookup tname
  let k : Key := (tname, (rowid : Int))
  let (ms, tx2) ← tx.write_lock_acquire k
  let upd := upd ++ [("row_id", Value.int rowid)]
  if ¬ ms.2 then some ((ms.1, false, none), tx2)
  else do
    let table ← tx2.table_dict.lookup tname
    match (table.get rowid).getLast? with
    | none => some (("row_not_found", false, none), tx2)
    | some row => do
        let tx3 :=
          if (tx2.original_row.lookup k).isNone then
            { tx2 with original_row := tx2.original_row ++ [(k, row)] }
          else tx2
        let newRow ← dictToTuple table.attrs upd row
        let table2 ← table.put svRowId newRow
        some (("row_updated", true, some newRow),
          { tx3 with table_dict := assocSet tx3.table_dict tname table2 })

/-- Embeds `SVLockBasedTransaction.delete`.  The source ignores the result
of the write-lock acquisition entirely: even after a lock-order rollback it
saves a pre-image into the (already aborted) transaction and empties the
chain.  `none` embeds the assertion failures (terminated transaction,
unknown table, empty chain). -/
def SVLockBasedTransaction.delete (tx : SVLockBasedTransaction)
    (tname : String) (rowid : Nat) : Option SVLockBasedTransaction := do
  if tx.status ≠ .running then none else do
  let _ ← tx.table_dict.lookup tname
  let k : Key := (tname, (rowid : Int))
  let (_, tx2) ← tx.write_lock_acquire k
  let table ← tx2.table_dict.lookup tname
  match (table.get rowid).getLast? with
  | none => none
  | some row => do
      let tx3 :=
        if (tx2.original_row.lookup k).isNone then
          { tx2 with original_row := tx2.original_row ++ [(k, row)] }
        else tx2
      let table2 ← table.delete rowid
      some { tx3 with table_dict := assocSet tx3.table_dict tname table2 }

/-! ### MVCCTransaction (`src/tm/transaction.py`) -/

/-- Key of a multi-version row: `(table_name, row_id)`. -/
abbrev MVKey := String × Nat

/-- One version of a multi-version row.  The source keeps versions as raw
tuples whose schema `add_table` prepends with `row_id`, `begin_ts`,
`end_ts`; the embedding names those three reserved positions and keeps the
user attribute values in `vals` (ordered like `attrs.drop 3` of the
table). -/
structure MVRow where
  row_id : Nat
  begin_ts : Nat
  end_ts : Nat
  vals : List Value
deriving DecidableEq, Repr

/-- The projection of a committed transaction that MVCC validation
consults: its commit timestamp and its write set
(`transaction_list` entries in `src/tm/transaction_manager.py`). -/
structure CommittedTxInfo where
  commit_ts : Nat
  write_set : List MVKey
deriving DecidableEq, Repr

/-- Multi-version optimistic transaction state.  The shared `table_dict`
and the manager's `transaction_list` references become fields.  The initial
`commit_ts` is `1 << 64 - 1`, which Python operator precedence reads as
`1 << 63`. -/
structure MVCCTransaction where
  isolation_level : IsolationLevel
  status : TransactionStatus := .running
  table_dict : List (String × Table MVRow)
  transaction_list : List CommittedTxInfo
  begin_ts : Nat
  commit_ts : Nat := 2 ^ 63
  read_set : List MVKey := []
  write_set : List MVKey := []
  local_updates : List (MVKey × MVRow) := []

/-- Embeds `MVCCTransaction.rollback`: discard the read/write sets and the
local updates (`local_updates = None` in the source), mark aborted. -/
def MVCCTransaction.rollback (tx : MVCCTransaction) : MVCCTransaction :=
  if tx.status = .running then
    { tx with read_set := [], write_set := [], local_updates := [],
              status := .aborted }
  else tx

/-- A version is visible to the transaction iff
`begin_ts <= tx.begin_ts < end_ts` (the scan condition of
`MVCCTransaction.read`). -/
def MVCCTransaction.visible (tx : MVCCTransaction) (v : MVRow) : Bool :=
  v.begin_ts ≤ tx.begin_ts && v.end_ts > tx.begin_ts

/-- Embeds `MVCCTransaction.read`: a locally staged row is returned unless
its `end_ts` is at or below the snapshot (read after delete — rollback);
otherwise the version chain is scanned in order for the first version
visible at `begin_ts`, recording the key in the read set; with no visible
version the transaction rolls back.  `none` embeds the assertions
(terminated transaction, unknown table). -/
def MVCCTransaction.read (tx : MVCCTransaction) (tname : String)
    (rowid : Nat) : Option ((String × Bool × Option MVRow) × MVCCTransaction) := do
  if tx.status ≠ .running then none else do
  let table ← tx.table_dict.lookup tname
  let k : MVKey := (tname, rowid)
  match tx.local_updates.lookup k with
  | some row =>
      if row.end_ts > tx.begin_ts then
        some (("row_found", true, some row), tx)
      else
        some (("read_after_delete, transaction_aborted", false, none), tx.rollback)
  | none =>
      match (table.get rowid).find? (fun v => tx.visible v) with
      | some v =>
          some (("row_found", true, some v),
            { tx with read_set := listInsert tx.read_set k })
      | none =>
          some (("row_not_found, transaction_aborted", false, none), tx.rollback)

/-- Applies an update dictionary to a version, attribute by attribute
(`if key in old_version: old_version[key] = val`); an unknown attribute
yields `none`, which the caller turns into the wrong-attribute abort.
Updates addressing the reserved timestamp attributes are possible in the
source and are mapped onto the named fields (a non-integer value there
would crash Python later and is `none` here). -/
def MVRow.applyUpd (r : MVRow) (userAttrs : List String)
    (upd : List (String × Value)) : Option MVRow :=
  upd.foldlM
    (fun r kv =>
      match kv.1, kv.2 with
      | "row_id", Value.int i => some { r with row_id := i.toNat }
      | "begin_ts", Value.int i => some { r with begin_ts := i.toNat }
      | "end_ts", Value.int i => some { r with end_ts := i.toNat }
      | a, v =>
          match userAttrs.indexOf? a with
          | some i => some { r with vals := r.vals.set i v }
          | none => none)
    r

/-- Embeds `MVCCTransaction.update`: fetch the current version (from the
local updates, or through `read`, aborting when the row is invisible),
refuse a version deleted at or before the snapshot (update after delete —
rollback), apply the dictionary (aborting on an unknown attribute), stage
the new version locally and record the write key. -/
def MVCCTransaction.update (tx : MVCCTransaction) (tname : String)
    (rowid : Nat) (upd : List (String × Value)) :
    Option ((String × Bool × Option MVRow) × MVCCTransaction) := do
  if tx.status ≠ .running then none else do
  let table ← tx.table_dict.lookup tname
  let k : MVKey := (tname, rowid)
  let step : Option (MVRow × MVCCTransaction) ←
    match tx.local_updates.lookup k with
    | some old => some (some (old, tx))
    | none => do
        let (res, tx2) ← tx.read tname rowid
        match res with
        | (_, false, _) => some (none : Option (MVRow × MVCCTransaction))
        | (_, true, some old) => some (some (old, tx2))
        | (_, true, none) => none
  match step with
  | none =>
      -- the read path failed; `read` already rolled the transaction back
      -- and the source calls `rollback` once more (a no-op on an aborted
      -- transaction)
      some (("row_not_found, transaction_aborted", false, none), tx.rollback)
  | some (old, tx2) =>
      if old.end_ts > tx2.begin_ts then
        match old.applyUpd (table.attrs.drop 3) upd with
        | some newr =>
            some (("row_updated", true, some newr),
              { tx2 with local_updates := assocSet tx2.local_updates k newr,
                         write_set := listInsert tx2.write_set k })
        | none =>
            some (("wrong_attribute_name, transaction aborted", false, none),
              tx2.rollback)
      else
        some (("update_after_delete, transaction_aborted", false, none),
          tx2.rollback)

/-- Embeds `MVCCTransaction.insert`: allocate the next row id from the
shared table (which already appends an empty chain there), stage a local
row with `begin_ts := begin_ts` and the `1 << 32` infinity sentinel as
`end_ts`, and record the write key.  An insert dictionary mentioning an
unknown attribute would crash the source at commit; it is rejected here
already (`none`).  A user attribute missing from the dictionary stays
Python `None`; the claims never exercise that and the embedding fills a
zero. -/
def MVCCTransaction.insert (tx : MVCCTransaction) (tname : String)
    (ins : List (String × Value)) : Option MVCCTransaction := do
  if tx.status ≠ .running then none else do
  let table ← tx.table_dict.lookup tname
  let (rowid, table2) := table.get_next_row_id
  let userAttrs := table2.attrs.drop 3
  if ins.all (fun kv => kv.1 ∈ userAttrs) then
    let row : MVRow :=
      { row_id := rowid, begin_ts := tx.begin_ts, end_ts := 2 ^ 32,
        vals := userAttrs.map (fun a => (ins.lookup a).getD (Value.int 0)) }
    let k : MVKey := (tname, rowid)
    some { tx with table_dict := assocSet tx.table_dict tname table2,
                   local_updates := assocSet tx.local_updates k row,
                   write_set := listInsert tx.write_set k }
  else none

/-- Embeds `MVCCTransaction.delete`: fetch the current version (locally or
through `read`, aborting when invisible), stage it with the `end_ts := 0`
deletion marker and record the write key. -/
def MVCCTransaction.delete (tx : MVCCTransaction) (tname : String)
    (rowid : Nat) : Option ((String × Bool × Option MVRow) × MVCCTransaction) := do
  if tx.status ≠ .running then none else do
  let _ ← tx.table_dict.lookup tname
  let k : MVKey := (tname, rowid)
  let step : Option (MVRow × MVCCTransaction) ←
    match tx.local_updates.lookup k with
    | some old => some (some (old, tx))
    | none => do
        let (res, tx2) ← tx.read tname rowid
        match res with
        | (_, false, _) => some (none : Option (MVRow × MVCCTransaction))
        | (_, true, some old) => some (some (old, tx2))
        | (_, true, none) => none
  match step with
  | none =>
      some (("row_not_found, transaction_aborted", false, none), tx.rollback)
  | some (old, tx2) =>
      let old2 := { old with end_ts := 0 }
      some (("row_deleted", true, some old2),
        { tx2 with local_updates := assocSet tx2.local_updates k old2,
                   write_set := listInsert tx2.write_set k })

/-- Embeds the validation loop of `MVCCTransaction.commit`: walk the
committed-transaction list; a transaction whose commit timestamp falls
strictly between this transaction's `begin_ts` and the new `commit_ts`
conflicts when the write sets intersect, or — for any isolation level other
than snapshot isolation — when its write set intersects this transaction's
read set. -/
def validateLoop (tx : MVCCTransaction) (cts : Nat) :
    List CommittedTxInfo → Bool
  | [] => false
  | t2 :: rest =>
      if tx.begin_ts < t2.commit_ts ∧ cts > t2.commit_ts then
        if ¬ listDisjoint tx.write_set t2.write_set then true
        else if tx.isolation_level ≠ .snapshot_isolation ∧
            ¬ listDisjoint tx.read_set t2.write_set then true
        else validateLoop tx cts rest
      else validateLoop tx cts rest

/-- Installs one pending row at commit: a deletion marker
(`end_ts == 0`) receives `end_ts := commit_ts`, anything else
`begin_ts := commit_ts`; the row is then `put` (appended to the version
chain).  `none` embeds a KeyError on the table name or the `put`
assertion. -/
def installRow (cts : Nat) (td : List (String × Table MVRow))
    (kv : MVKey × MVRow) : Option (List (String × Table MVRow)) := do
  let val := if kv.2.end_ts = 0 then { kv.2 with end_ts := cts }
             else { kv.2 with begin_ts := cts }
  let table ← td.lookup kv.1.1
  let table2 ← table.put (fun r => some r.row_id) val
  some (assocSet td kv.1.1 table2)

/-- Embeds `MVCCTransaction.commit`: set `commit_ts`, validate against the
committed-transaction list (rolling back on the first conflict), then
install every pending row in staging order, clear the read set and the
local updates and mark committed.  A terminated transaction returns
`False`. -/
def MVCCTransaction.commit (tx : MVCCTransaction) (commit_ts : Nat) :
    Option (Bool × MVCCTransaction) :=
  if tx.status = .running then
    let tx := { tx with commit_ts := commit_ts }
    if validateLoop tx commit_ts tx.transaction_list then
      some (false, tx.rollback)
    else do
      let td ← tx.local_updates.foldlM (installRow commit_ts) tx.table_dict
      some (true, { tx with table_dict := td, read_set := [],
                            local_updates := [], status := .committed })
  else some (false, tx)

/-! ### Precedence graph
(`TransactionManager.generate_precedence_graph` in
`src/tm/transaction_manager.py` and `Codegen.get_read_write_set` in
`src/tm/codegen.py`). -/

/-- Read or write access. -/
inductive AccessMode where
  | r
  | w
deriving DecidableEq, Repr

/-- A parsed pseudocode statement, at the granularity
`get_read_write_set` inspects: only READ, UPDATE and DELETE carry a row id
(kept as the string the regular expressions capture). -/
inductive PStmt where
  | beginStmt
  | readStmt (rowid : String)
  | updateStmt (rowid : String)
  | insertStmt
  | deleteStmt (rowid : String)
  | assertStmt
  | commitStmt
  | abortStmt
deriving DecidableEq, Repr

/-- Embeds `Codegen.get_read_write_set`: the accessed row id (the captured
string, not resolved against a table) and the access mode; statements
without a row access yield `None`. -/
def get_read_write_set : PStmt → Option (String × AccessMode)
  | .readStmt rid => some (rid, .r)
  | .updateStmt rid => some (rid, .w)
  | .deleteStmt rid => some (rid, .w)
  | _ => none

/-- One row access of a schedule: owning transaction, row id, mode. -/
structure Access where
  tx : String
  rid : String
  mode : AccessMode
deriving DecidableEq, Repr

/-- The row accesses of a schedule in order (the `row_id_idx` loop body of
`generate_precedence_graph` before grouping). -/
def accessesOf (sched : List (String × PStmt)) : List Access :=
  sched.filterMap (fun ts =>
    (get_read_write_set ts.2).map (fun rm => ⟨ts.1, rm.1, rm.2⟩))

/-- All ordered pairs `(val[i], val[j])` with `i < j` of a list, as the
double loop of `generate_precedence_graph` enumerates them. -/
def orderedPairs : List α → List (α × α)
  | [] => []
  | a :: rest => rest.map (fun b => (a, b)) ++ orderedPairs rest

/-- Keeps the first occurrence of every element (key iteration order of the
`row_id_idx` dict). -/
def dedupKeepFirstGen [DecidableEq κ] : List κ → List κ
  | [] => []
  | a :: rest => a :: (dedupKeepFirstGen rest).filter (fun b => b ≠ a)

/-- Embeds the edge construction of `generate_precedence_graph`: group the
accesses by row id (insertion order, as a Python dict), then for every
ordered pair within a group whose transactions differ add the edge — the
read-then-write branch and the catch-all `elif` of the source add exactly
the same edge, so any same-row ordered pair of distinct transactions
produces one (read-read pairs included). -/
def precedenceEdges (sched : List (String × PStmt)) : List (String × String) :=
  let accs := accessesOf sched
  let keys := dedupKeepFirstGen (accs.map (fun a => a.rid))
  keys.flatMap (fun k =>
    (orderedPairs (accs.filter (fun a => a.rid = k))).filterMap
      (fun ab => if ab.1.tx ≠ ab.2.tx then some (ab.1.tx, ab.2.tx) else none))

end TM

open RA TM

/-! ## Specification-side helpers used by the theorems -/

/-- Maps an `Option`-valued function over a list, failing on the first
`none` (specification-side tool for naming the candidate estimates). -/
def mapOpt (f : α → Option β) : List α → Option (List β)
  | [] => some []
  | x :: rest => do
      let y ← f x
      let ys ← mapOpt f rest
      some (y :: ys)

/-- Specification-side mirror of the running-minimum loop of
`CSI_modify`, acting on `(position, size)` pairs with the estimates already
computed. -/
def pickZ : List (Nat × Nat) → Nat → Option Nat → Option Nat
  | [], _, acc => acc
  | (i, s) :: rest, m, acc =>
      if s < m then pickZ rest s (some i) else pickZ rest m acc

/-- The operator chain `CSI_modify` builds once the candidate at position
`k` of the collected selections is picked: that candidate becomes an
index-based selection directly over the leaf, every other collected
selection is stacked above it as a scan-based selection in ascending
collection order. -/
def chainOf (sels : List (Pred × List String)) (k : Nat) (rel : Relation) : Op :=
  (sels.enum.filter (fun ip => ip.1 ≠ k)).foldl
    (fun acc ip => Op.selectionScan ip.2.1 acc)
    (Op.selectionIndex (sels.getD k ([], [])).1 (Op.leaf rel))

/-- The commit-validation conflict stated by the specification: some
committed transaction with a commit timestamp strictly between this
transaction's begin timestamp and the new commit timestamp wrote a key this
transaction wrote, or — under serializable only — a key it read. -/
def mvccConflictSpec (tx : MVCCTransaction) (cts : Nat) : Prop :=
  ∃ t2 ∈ tx.transaction_list,
    (tx.begin_ts < t2.commit_ts ∧ t2.commit_ts < cts) ∧
    (listDisjoint tx.write_set t2.write_set = false ∨
     (tx.isolation_level = .serializable ∧
      listDisjoint tx.read_set t2.write_set = false))

/-! ## Concrete instances used by counterexamples and witnesses -/

/-- Relation R(a, b) with the single tuple (1, 10) and no index. -/
def relR : Relation :=
  { attrs := ["a", "b"], tuples := [[Value.int 1, Value.int 10]] }

/-- Predicate `a == 1`. -/
def predA1 : Pred := [⟨.attr "a", .eq, .const (.int 1)⟩]

/-- The plan `σ_[a == 1](R)`. -/
def plnC1 : Op := Op.selection predA1 (Op.leaf relR)

/-- Single-attribute relation holding only the tuple (1), indexed on its
attribute. -/
def relC5 : Relation :=
  { attrs := ["k"], tuples := [[Value.int 1]], indexedAttrs := ["k"] }

/-- The secondary index on `relC5.k`. -/
def idxC5 : Index := Index.ofRelation relC5 0

/-- Relation Q(a, b, c) with three tuples and indexes on `a` and `b`. -/
def relQ : Relation :=
  { attrs := ["a", "b", "c"],
    tuples := [[Value.int 5, Value.int 9, Value.int 9],
               [Value.int 6, Value.int 9, Value.int 9],
               [Value.int 7, Value.int 1, Value.int 1]],
    indexedAttrs := ["a", "b"] }

/-- Predicate `a == 5` (one attribute). -/
def predA5 : Pred := [⟨.attr "a", .eq, .const (.int 5)⟩]

/-- Predicate `b > 2 and c < 3` (two attributes). -/
def predBC : Pred :=
  [⟨.attr "b", .gt, .const (.int 2)⟩, ⟨.attr "c", .lt, .const (.int 3)⟩]

/-- The plan `σ_[a == 5](σ_[b > 2 and c < 3](Q))`. -/
def plnC9 : Op := Op.selection predA5 (Op.selection predBC (Op.leaf relQ))

/-- A single-version table with one row (row id 0). -/
def tblC7 : Table (List Value) :=
  { attrs := ["row_id", "v"], tuples := [[[Value.int 0, Value.int 5]]] }

/-- An empty multi-version table A(val). -/
def mvT0 : Table MVRow :=
  { attrs := ["row_id", "begin_ts", "end_ts", "val"], use_multiversion := true }

/-- A snapshot-isolation transaction with begin timestamp 1 over the empty
table A. -/
def tx1C3 : MVCCTransaction :=
  { isolation_level := .snapshot_isolation, table_dict := [("A", mvT0)],
    transaction_list := [], begin_ts := 1 }

/-- The scenario behind claim C3: transaction 1 (begin 1) inserts a row
into A and commits at timestamp 2; transaction 2 (begin 3) updates that row
and commits at timestamp 4 after validating against transaction 1.  The
result is the final version chain of row 0. -/
def c3chain : Option (List MVRow) := do
  let tx1b ← tx1C3.insert "A" [("val", Value.int 100)]
  let (ok1, tx1c) ← tx1b.commit 2
  if ¬ ok1 then none else do
  let tx2 : MVCCTransaction :=
    { isolation_level := .snapshot_isolation, table_dict := tx1c.table_dict,
      transaction_list := [⟨2, [("A", 0)]⟩], begin_ts := 3 }
  let (res, tx2b) ← tx2.update "A" 0 [("val", Value.int 200)]
  if ¬ res.2.1 then none else do
  let (ok2, tx2c) ← tx2b.commit 4
  if ¬ ok2 then none else do
  let tA ← tx2c.table_dict.lookup "A"
  some (tA.get 0)

/-- MVCC transaction at begin timestamp 5 over a table whose row 0 carries
the versions [2, 4) and [4, +∞). -/
def txC2 : MVCCTransaction :=
  { isolation_level := .serializable,
    table_dict :=
      [("A", { attrs := ["row_id", "begin_ts", "end_ts", "val"],
               use_multiversion := true,
               tuples := [[⟨0, 2, 4, [Value.int 1]⟩,
                           ⟨0, 4, 4294967296, [Value.int 7]⟩]] })],
    transaction_list := [], begin_ts := 5 }

/-- MVCC transaction (begin 1, write set containing (A, 0)) facing a
committed transaction with commit timestamp 2 that also wrote (A, 0). -/
def txC4 : MVCCTransaction :=
  { isolation_level := .snapshot_isolation, table_dict := [],
    transaction_list := [⟨2, [("A", 0)]⟩], begin_ts := 1,
    write_set := [("A", 0)] }

/-- Lock-based read-committed transaction whose `last_lock_id` is already
("T", 5). -/
def txC6 : SVLockBasedTransaction :=
  { tx_id := 1, isolation_level := .read_committed,
    table_dict :=
      [("T", { attrs := ["row_id", "bal"],
               tuples := [[[Value.int 0, Value.int 10]]] })],
    last_lock_id := ("T", 5) }

/-- Fresh lock-based read-committed transaction over a table with
rows 0 and 1. -/
def txC10 : SVLockBasedTransaction :=
  { tx_id := 1, isolation_level := .read_committed,
    table_dict :=
      [("T", { attrs := ["row_id", "bal"],
               tuples := [[[Value.int 0, Value.int 10]],
                          [[Value.int 1, Value.int 20]]] })] }

/-- A schedule in which two distinct transactions only read row 0. -/
def schedC8 : List (String × PStmt) :=
  [("T1", .readStmt "0"), ("T2", .readStmt "0")]

/-- The table `tblC7` after `delete(0)`: the chain is emptied but the free
list stays empty. -/
def tblC7after : Table (List Value) :=
  { attrs := ["row_id", "v"], tuples := [[]] }

/-! ## Theorems -/

/-- C1: the rewrite pipeline is not semantics-preserving.  On the plan
`σ_[a == 1](R)` with R(a,b) = {(1,10)}, the InsertProjection rewrite — the
last rule of the rewrite pass, on a plan that the three preceding rules
leave untouched — annotates the selection root with only its predicate
attribute `a` and therefore inserts `π_[a]` below it; the rewritten plan
evaluates to {(1)} while the original evaluates to {(1, 10)}, so
`evaluate(compile(rewrite(p)))` cannot equal `evaluate(p)` (the compile
pass lowers both operators to their scan-based counterparts, which evaluate
identically). -/
theorem C1_insert_projection_changes_result :
    evalOp plnC1 =
      some { attrs := ["a", "b"], tuples := [[Value.int 1, Value.int 10]] } ∧
    insertProjections plnC1 =
      Op.selection predA1 (Op.projection ["a"] (Op.leaf relR)) ∧
    evalOp (insertProjections plnC1) =
      some { attrs := ["a"], tuples := [[Value.int 1]] } ∧
    [Value.int 1, Value.int 10] ∈ ([[Value.int 1, Value.int 10]] : List Tup) ∧
    [Value.int 1, Value.int 10] ∉ ([[Value.int 1]] : List Tup) :=
  ⟨rfl, rfl, rfl, by decide, by decide⟩

/-- C3: a committing update does not close the prior visible version.
After transaction 1 inserts row 0 of table A and commits at timestamp 2 and
transaction 2 updates it and commits at timestamp 4, the version chain
holds both versions with `end_ts = 2^32` (+∞): the prior version's
`end_ts` is not the overwriting transaction's commit timestamp 4 and the
two `[begin_ts, end_ts)` intervals overlap (timestamp 5 lies in both),
violating the claimed invariant. -/
theorem C3_commit_leaves_prior_version_open :
    c3chain = some [⟨0, 2, 4294967296, [Value.int 100]⟩,
                    ⟨0, 4, 4294967296, [Value.int 200]⟩] ∧
    ((2 ≤ 5 ∧ 5 < 4294967296) ∧ (4 ≤ 5 ∧ 5 < 4294967296)) ∧
    (4294967296 : Nat) ≠ 4 :=
  ⟨rfl, by decide, by decide⟩

/-- C5: the `==` lookup of the index crashes when the probed key equals the
maximal key.  On the indexed single-tuple relation {(1)}, `Index.get(==, 1)`
finds the leftmost equal entry, scans forward past the end of the data
vector and evaluates `self.data[i][0]` at `i = len(self.data)` — an
IndexError (`none`) — instead of returning the tuple (1). -/
theorem C5_index_eq_scan_runs_past_end :
    Index.getEq idxC5 (Value.int 1) = none ∧
    [Value.int 1] ∈ relC5.tuples ∧
    idxC5.data = [(Value.int 1, [Value.int 1])] :=
  ⟨by decide, by decide, by decide⟩

/-- C7: `Table.delete` empties the chain but never records the freed id:
the free list stays empty, so the next `get_next_row_id` appends a fresh
chain and returns 1 instead of reusing 0; only when the free list is
(otherwise) non-empty does `get_next_row_id` pop from it. -/
theorem C7_delete_never_frees_row_id :
    Table.delete tblC7 0 = some tblC7after ∧
    tblC7after.deleted_row_ids = [] ∧
    (Table.get_next_row_id tblC7after).1 = 1 ∧
    (Table.get_next_row_id { tblC7 with deleted_row_ids := [0] }).1 = 0 :=
  ⟨rfl, rfl, rfl, rfl⟩

/-- C8 (counterexample): the precedence-graph construction emits the edge
T1 → T2 for a schedule in which both transactions only read row 0, contrary
to the claim that no edge is produced when both accesses are reads. -/
theorem C8_read_read_edge_counterexample :
    precedenceEdges schedC8 = [("T1", "T2")] ∧
    accessesOf schedC8 = [⟨"T1", "0", .r⟩, ⟨"T2", "0", .r⟩] :=
  ⟨rfl, rfl⟩

/-- C9 (counterexample): compiling `σ_[a == 5](σ_[b > 2 and c < 3](Q))`
with indexes on `a` and `b` turns the inner selection — whose predicate
references two attributes — into the `Selection_IndexBased`, because its
estimated result (0 tuples) undercuts the matched selection's (1 tuple);
this contradicts the claim that the compiler picks an index-based selection
only when its predicate references exactly one attribute. -/
theorem C9_multi_attribute_pick_counterexample :
    CSI_modify plnC9 =
      some (Op.selectionScan predA5 (Op.selectionIndex predBC (Op.leaf relQ))) ∧
    (attrsInPred predBC relQ.attrs).length = 2 ∧
    CSI_match plnC9 = true :=
  ⟨rfl, rfl, rfl⟩

/-- Helper: `find?` returns the unique element satisfying the predicate. -/
theorem find?_eq_some_of_unique {α : Type} {p : α → Bool} {l : List α} {v : α}
    (hv : v ∈ l) (hpv : p v = true) (huniq : ∀ w ∈ l, p w = true → w = v) :
    l.find? p = some v := by
  induction l with
  | nil => cases hv
  | cons x rest ih =>
      cases hpx : p x with
      | true =>
          have hx : x = v := huniq x (by simp) hpx
          simp [List.find?, hpx, hx, hpv]
      | false =>
          have hv' : v ∈ rest := by
            rcases List.mem_cons.mp hv with h | h
            · rw [← h] at hpx; rw [hpv] at hpx; cases hpx
            · exact h
          simp only [List.find?, hpx]
          exact ih hv' (fun w hw hpw => huniq w (List.mem_cons_of_mem _ hw) hpw)

/-- C2: the MVCC read.  For a key without a locally staged row, `read`
returns the unique version of the chain visible at the transaction's begin
timestamp when one exists (recording the key in the read set), and rolls
the transaction back with a failure when no version is visible; a read of a
locally staged row whose `end_ts` is at or below the begin timestamp also
rolls the transaction back. -/
theorem C2_mvcc_read_visibility (tx : MVCCTransaction) (tname : String)
    (rowid : Nat) (table : Table MVRow)
    (hrun : tx.status = .running)
    (htab : tx.table_dict.lookup tname = some table) :
    ((tx.local_updates.lookup (tname, rowid) = none) →
      ∀ v ∈ table.get rowid, tx.visible v = true →
        (∀ w ∈ table.get rowid, tx.visible w = true → w = v) →
        tx.read tname rowid =
          some (("row_found", true, some v),
            { tx with read_set := listInsert tx.read_set (tname, rowid) })) ∧
    ((tx.local_updates.lookup (tname, rowid) = none) →
      (∀ v ∈ table.get rowid, tx.visible v = false) →
      tx.read tname rowid =
        some (("row_not_found, transaction_aborted", false, none), tx.rollback) ∧
      tx.rollback.status = .aborted) ∧
    (∀ row, tx.local_updates.lookup (tname, rowid) = some row →
      row.end_ts ≤ tx.begin_ts →
      tx.read tname rowid =
        some (("read_after_delete, transaction_aborted", false, none), tx.rollback) ∧
      tx.rollback.status = .aborted) := by
  refine ⟨?_, ?_, ?_⟩
  · intro hloc v hvm hvv huniq
    have hfind : (table.get rowid).find? (fun w => tx.visible w) = some v :=
      find?_eq_some_of_unique hvm hvv huniq
    simp [MVCCTransaction.read, hrun, htab, hloc, hfind]
  · intro hloc hnone
    have hfind : (table.get rowid).find? (fun w => tx.visible w) = none := by
      rw [List.find?_eq_none]
      intro w hw
      simp [hnone w hw]
    constructor
    · simp [MVCCTransaction.read, hrun, htab, hloc, hfind]
    · simp [MVCCTransaction.rollback, hrun]
  · intro row hloc hts
    have hgt : ¬ row.end_ts > tx.begin_ts := by omega
    constructor
    · simp [MVCCTransaction.read, hrun, htab, hloc, hgt]
    · simp [MVCCTransaction.rollback, hrun]

/-- C2 (witness): at begin timestamp 5 over the chain [2,4), [4,+∞), the
read returns the second version and records the read key. -/
theorem C2_mvcc_read_visibility_witness :
    txC2.read "A" 0 =
      some (("row_found", true, some ⟨0, 4, 4294967296, [Value.int 7]⟩),
        { txC2 with read_set := listInsert txC2.read_set ("A", 0) }) :=
  (C2_mvcc_read_visibility txC2 "A" 0
      { attrs := ["row_id", "begin_ts", "end_ts", "val"],
        use_multiversion := true,
        tuples := [[⟨0, 2, 4, [Value.int 1]⟩, ⟨0, 4, 4294967296, [Value.int 7]⟩]] }
      rfl rfl).1 rfl ⟨0, 4, 4294967296, [Value.int 7]⟩ (by decide) (by decide)
    (by decide)

/-- Helper: the validation loop only consults the begin timestamp, the
write and read sets and the isolation level of the committing
transaction. -/
theorem validateLoop_congr (tx1 tx2 : MVCCTransaction) (cts : Nat)
    (l : List CommittedTxInfo)
    (hb : tx1.begin_ts = tx2.begin_ts) (hw : tx1.write_set = tx2.write_set)
    (hr : tx1.read_set = tx2.read_set)
    (hi : tx1.isolation_level = tx2.isolation_level) :
    validateLoop tx1 cts l = validateLoop tx2 cts l := by
  induction l with
  | nil => rfl
  | cons t2 rest ih => simp only [validateLoop, hb, hw, hr, hi, ih]

/-- Helper: the validation loop finds a conflict iff some listed committed
transaction has its commit timestamp in the open window and a non-disjoint
write set (or, beyond snapshot isolation, a write set meeting the read
set). -/
theorem validateLoop_eq_true_iff (tx : MVCCTransaction) (cts : Nat)
    (l : List CommittedTxInfo) :
    validateLoop tx cts l = true ↔
      ∃ t2 ∈ l, (tx.begin_ts < t2.commit_ts ∧ cts > t2.commit_ts) ∧
        (listDisjoint tx.write_set t2.write_set = false ∨
         (tx.isolation_level ≠ .snapshot_isolation ∧
          listDisjoint tx.read_set t2.write_set = false)) := by
  induction l with
  | nil => simp [validateLoop]
  | cons t2 rest ih =>
      constructor
      · intro h
        unfold validateLoop at h
        by_cases hw : tx.begin_ts < t2.commit_ts ∧ cts > t2.commit_ts
        · rw [if_pos hw] at h
          by_cases hww : ¬ listDisjoint tx.write_set t2.write_set = true
          · refine ⟨t2, List.mem_cons_self t2 rest, hw, Or.inl ?_⟩
            revert hww; cases listDisjoint tx.write_set t2.write_set <;> simp
          · rw [if_neg hww] at h
            by_cases hrw : tx.isolation_level ≠ IsolationLevel.snapshot_isolation ∧
                ¬ listDisjoint tx.read_set t2.write_set = true
            · refine ⟨t2, List.mem_cons_self t2 rest, hw, Or.inr ⟨hrw.1, ?_⟩⟩
              have h2 := hrw.2
              revert h2; cases listDisjoint tx.read_set t2.write_set <;> simp
            · rw [if_neg hrw] at h
              obtain ⟨t3, h3, hc3⟩ := ih.mp h
              exact ⟨t3, List.mem_cons_of_mem _ h3, hc3⟩
        · rw [if_neg hw] at h
          obtain ⟨t3, h3, hc3⟩ := ih.mp h
          exact ⟨t3, List.mem_cons_of_mem _ h3, hc3⟩
      · rintro ⟨t3, h3, hcw, hcc⟩
        unfold validateLoop
        rcases List.mem_cons.mp h3 with heq | hmem
        · subst heq
          rw [if_pos hcw]
          rcases hcc with hx | hx
          · rw [if_pos (by simp [hx])]
          · by_cases hww : ¬ listDisjoint tx.write_set t3.write_set = true
            · rw [if_pos hww]
            · rw [if_neg hww, if_pos ⟨hx.1, by simp [hx.2]⟩]
        · by_cases hw : tx.begin_ts < t2.commit_ts ∧ cts > t2.commit_ts
          · rw [if_pos hw]
            by_cases hww : ¬ listDisjoint tx.write_set t2.write_set = true
            · rw [if_pos hww]
            · rw [if_neg hww]
              by_cases hrw : tx.isolation_level ≠ IsolationLevel.snapshot_isolation ∧
                  ¬ listDisjoint tx.read_set t2.write_set = true
              · rw [if_pos hrw]
              · rw [if_neg hrw]
                exact ih.mpr ⟨t3, hmem, hcw, hcc⟩
          · rw [if_neg hw]
            exact ih.mpr ⟨t3, hmem, hcw, hcc⟩

/-- C4: MVCC commit validation.  For a running transaction at an MVCC
isolation level and a staging state whose installs succeed, the commit
aborts (rolls back, leaving the shared tables untouched) exactly when some
committed transaction with commit timestamp strictly between `begin_ts` and
`commit_ts` wrote a key in the committing transaction's write set, or —
under serializable only — a key in its read set; otherwise it installs
every pending local row and the transaction becomes committed. -/
theorem C4_mvcc_commit_validation (tx : MVCCTransaction) (cts : Nat)
    (hrun : tx.status = .running)
    (hiso : tx.isolation_level = .snapshot_isolation ∨
            tx.isolation_level = .serializable)
    (hinst : ∃ td, tx.local_updates.foldlM (installRow cts) tx.table_dict = some td) :
    ((∃ tx2, tx.commit cts = some (false, tx2) ∧ tx2.status = .aborted ∧
        tx2.table_dict = tx.table_dict) ↔ mvccConflictSpec tx cts) ∧
    (¬ mvccConflictSpec tx cts →
      ∃ td, tx.local_updates.foldlM (installRow cts) tx.table_dict = some td ∧
        tx.commit cts = some (true,
          { tx with commit_ts := cts, table_dict := td, read_set := [],
                    local_updates := [], status := .committed })) := by
  have hisoNe : (tx.isolation_level ≠ IsolationLevel.snapshot_isolation) ↔
      tx.isolation_level = .serializable := by
    rcases hiso with h | h <;> simp [h]
  have hproj : validateLoop { tx with commit_ts := cts } cts tx.transaction_list
      = validateLoop tx cts tx.transaction_list :=
    validateLoop_congr _ _ cts _ rfl rfl rfl rfl
  have hval : validateLoop { tx with commit_ts := cts } cts tx.transaction_list = true ↔
      mvccConflictSpec tx cts := by
    rw [hproj, validateLoop_eq_true_iff]
    unfold mvccConflictSpec
    simp only [hisoNe, gt_iff_lt]
  obtain ⟨td, htd⟩ := hinst
  by_cases hv : validateLoop { tx with commit_ts := cts } cts tx.transaction_list = true
  · have hcommit : tx.commit cts =
        some (false, MVCCTransaction.rollback { tx with commit_ts := cts }) := by
      simp only [MVCCTransaction.commit]
      rw [if_pos hrun, if_pos hv]
    have hstat : (MVCCTransaction.rollback { tx with commit_ts := cts }).status =
        .aborted := by
      simp only [MVCCTransaction.rollback]
      rw [if_pos (show ({ tx with commit_ts := cts } : MVCCTransaction).status = .running from hrun)]
    have htbl : (MVCCTransaction.rollback { tx with commit_ts := cts }).table_dict =
        tx.table_dict := by
      simp only [MVCCTransaction.rollback]
      rw [if_pos (show ({ tx with commit_ts := cts } : MVCCTransaction).status = .running from hrun)]
    refine ⟨⟨fun _ => hval.mp hv, fun _ => ⟨_, hcommit, hstat, htbl⟩⟩, ?_⟩
    intro hnc
    exact absurd (hval.mp hv) hnc
  · have hcommit : tx.commit cts = some (true,
        { tx with commit_ts := cts, table_dict := td, read_set := [],
                  local_updates := [], status := .committed }) := by
      simp only [MVCCTransaction.commit]
      rw [if_pos hrun, if_neg hv]
      show (tx.local_updates.foldlM (installRow cts) tx.table_dict).bind _ = _
      rw [htd]
      rfl
    refine ⟨⟨?_, ?_⟩, fun _ => ⟨td, htd, hcommit⟩⟩
    · rintro ⟨tx2, hc2, _⟩
      rw [hcommit] at hc2
      simp at hc2
    · intro hconf
      exact absurd (hval.mpr hconf) hv

/-- C4 (witness): a transaction that began at timestamp 1 and wrote (A, 0)
aborts when committing at timestamp 3 against a committed transaction that
wrote (A, 0) at timestamp 2; a transaction with an empty staging area over
no tables commits. -/
theorem C4_mvcc_commit_validation_witness :
    ∃ tx2, txC4.commit 3 = some (false, tx2) ∧ tx2.status = .aborted ∧
      tx2.table_dict = txC4.table_dict :=
  ((C4_mvcc_commit_validation txC4 3 rfl (Or.inl rfl)
      ⟨txC4.table_dict, rfl⟩).1).mpr
    ⟨⟨2, [("A", 0)]⟩, by decide, by decide, Or.inl (by decide)⟩

/-- Helper: the two possible outcomes of `try_acquire_read`. -/
theorem try_acquire_read_cases (l : DummyRWLock) :
    l.try_acquire_read = (("read_lock_acquired", true), { l with readers := l.readers + 1 }) ∨
    l.try_acquire_read = (("write_lock_already_held", false), l) := by
  unfold DummyRWLock.try_acquire_read
  by_cases h : l.active_writer = true
  · exact Or.inr (by rw [if_neg (by simp [h])])
  · exact Or.inl (by rw [if_pos (by simp [h])])

/-- Helper: the three possible outcomes of `try_acquire_write`. -/
theorem try_acquire_write_cases (l : DummyRWLock) :
    l.try_acquire_write = (("write_lock_already_held", false), l) ∨
    l.try_acquire_write = (("read_lock_already_held", false), l) ∨
    l.try_acquire_write = (("write_lock_acquired", true), { l with active_writer := true }) := by
  unfold DummyRWLock.try_acquire_write
  by_cases h1 : l.active_writer = true
  · exact Or.inl (by rw [if_pos h1])
  · by_cases h2 : l.readers ≠ 0
    · exact Or.inr (Or.inl (by rw [if_neg h1, if_pos h2]))
    · exact Or.inr (Or.inr (by rw [if_neg h1, if_neg h2]))

/-- C6: lock-ordering deadlock avoidance.  A lock-acquiring read (under
read-committed, or under repeatable-reads/serializable when the key is not
locally cached), an update, or a delete whose lock key is lexicographically
below `last_lock_id` triggers an immediate rollback — the transaction
becomes aborted, pre-images are restored and locks released (all of which
`rollback` performs) — with the lock-order failure message; acquisitions at
or above `last_lock_id` never produce that message. -/
theorem C6_lock_order_rollback (tx : SVLockBasedTransaction) (tname : String)
    (rowid : Nat) (upd : List (String × Value)) :
    (tx.status = .running →
      (tx.table_dict.lookup tname).isSome = true →
      keyLtB (tname, (rowid : Int)) tx.last_lock_id = true →
      (tx.isolation_level = .read_committed ∨
        ((tx.isolation_level = .repeatable_reads ∨
          tx.isolation_level = .serializable) ∧
         tx.local_reads.lookup (tname, (rowid : Int)) = none)) →
      tx.read tname rowid = some ((lockOrderMsg, false, none), tx.rollback) ∧
      tx.rollback.status = .aborted) ∧
    (tx.status = .running →
      (tx.table_dict.lookup tname).isSome = true →
      keyLtB (tname, (rowid : Int)) tx.last_lock_id = true →
      tx.update tname rowid upd = some ((lockOrderMsg, false, none), tx.rollback)) ∧
    (tx.status = .running →
      keyLtB (tname, (rowid : Int)) tx.last_lock_id = true →
      ∀ tx2, tx.delete tname rowid = some tx2 → tx2.status = .aborted) ∧
    (keyLtB (tname, (rowid : Int)) tx.last_lock_id = false →
      (tx.read_lock_acquire (tname, (rowid : Int))).1.1 ≠ lockOrderMsg ∧
      (∀ r, tx.write_lock_acquire (tname, (rowid : Int)) = some r →
        r.1.1 ≠ lockOrderMsg)) := by
  refine ⟨?_, ?_, ?_, ?_⟩
  · intro hrun htab hlt hlvl
    obtain ⟨table, htbl⟩ := Option.isSome_iff_exists.mp htab
    have hacq : tx.read_lock_acquire (tname, (rowid : Int)) =
        ((lockOrderMsg, false), tx.rollback) := by
      simp [SVLockBasedTransaction.read_lock_acquire, hlt]
    have hstat : tx.rollback.status = .aborted := by
      simp [SVLockBasedTransaction.rollback, hrun]
    refine ⟨?_, hstat⟩
    rcases hlvl with h | ⟨h, hcache⟩
    · simp [SVLockBasedTransaction.read, hrun, htbl, h,
            SVLockBasedTransaction.read_RC, hacq]
    · rcases h with h | h <;>
        simp [SVLockBasedTransaction.read, hrun, htbl, h,
              SVLockBasedTransaction.read_RR, hcache,
              SVLockBasedTransaction.read_RC, hacq]
  · intro hrun htab hlt
    obtain ⟨table, htbl⟩ := Option.isSome_iff_exists.mp htab
    have hacq : tx.write_lock_acquire (tname, (rowid : Int)) =
        some ((lockOrderMsg, false), tx.rollback) := by
      simp [SVLockBasedTransaction.write_lock_acquire, hlt]
    simp [SVLockBasedTransaction.update, hrun, htbl, hacq]
  · intro hrun hlt tx2 h
    have hacq : tx.write_lock_acquire (tname, (rowid : Int)) =
        some ((lockOrderMsg, false), tx.rollback) := by
      simp [SVLockBasedTransaction.write_lock_acquire, hlt]
    have hstat : tx.rollback.status = .aborted := by
      simp [SVLockBasedTransaction.rollback, hrun]
    simp only [SVLockBasedTransaction.delete, hacq, Option.bind] at h
    rw [if_neg (by simp [hrun])] at h
    cases htb1 : tx.table_dict.lookup tname with
    | none => rw [htb1] at h; simp at h
    | some t1 =>
        simp only [htb1, Option.bind_eq_bind, Option.some_bind] at h
        cases htb2 : tx.rollback.table_dict.lookup tname with
        | none => rw [htb2] at h; simp at h
        | some t2 =>
            simp only [htb2, Option.some_bind] at h
            cases hlast : (t2.get rowid).getLast? with
            | none => rw [hlast] at h; simp at h
            | some row =>
                simp only [hlast, Option.some_bind] at h
                cases hdel : t2.delete rowid with
                | none => rw [hdel] at h; simp at h
                | some t3 =>
                    simp only [hdel, Option.some_bind, Option.some.injEq] at h
                    rw [← h]
                    by_cases hor :
                        (tx.rollback.original_row.lookup (tname, (rowid : Int))).isNone = true
                    · simp [hor, hstat]
                    · simp [hor, hstat]
  · intro hge
    constructor
    · unfold SVLockBasedTransaction.read_lock_acquire
      rw [if_neg (by simp [hge])]
      by_cases h1 : (tname, (rowid : Int)) ∈ tx.read_lock_list_local
      · rw [if_pos h1]
        exact (by decide : ("read_lock_acquired" : String) ≠ lockOrderMsg)
      · rw [if_neg h1]
        by_cases h2 : (tname, (rowid : Int)) ∈ tx.write_lock_list_local
        · rw [if_pos h2]
          exact (by decide : ("read_lock_acquired" : String) ≠ lockOrderMsg)
        · rw [if_neg h2]
          cases hlk : tx.global_lock_dict.lookup (tname, (rowid : Int)) with
          | none =>
              exact (by decide : ("read_lock_acquired" : String) ≠ lockOrderMsg)
          | some lock =>
              rcases try_acquire_read_cases lock with hc | hc <;> simp only [hc] <;>
                split <;>
                first
                  | exact (by decide : ("read_lock_acquired" : String) ≠ lockOrderMsg)
                  | exact (by decide :
                      ("write_lock_already_held" : String) ≠ lockOrderMsg)
    · intro r hr
      unfold SVLockBasedTransaction.write_lock_acquire at hr
      rw [if_neg (by simp [hge])] at hr
      by_cases h1 : (tname, (rowid : Int)) ∈ tx.write_lock_list_local
      · rw [if_pos h1] at hr
        rw [← Option.some.inj hr]
        exact (by decide : ("write_lock_acquired" : String) ≠ lockOrderMsg)
      · rw [if_neg h1] at hr
        by_cases h2 : (tname, (rowid : Int)) ∈ tx.read_lock_list_local
        · rw [if_pos h2] at hr
          cases hlk : tx.global_lock_dict.lookup (tname, (rowid : Int)) with
          | none =>
              rw [hlk] at hr
              simp [Option.bind_eq_bind] at hr
          | some lock =>
              rw [hlk] at hr
              simp only [Option.bind_eq_bind, Option.some_bind] at hr
              rcases try_acquire_write_cases lock.release_read_lock with hc | hc | hc <;>
                rw [hc] at hr <;>
                split at hr <;>
                first
                  | (rw [← Option.some.inj hr]
                     first
                       | exact (by decide : ("write_lock_acquired" : String) ≠ lockOrderMsg)
                       | exact (by decide :
                           ("write_lock_acquire_failed" : String) ≠ lockOrderMsg)
                       | exact (by decide : ("transaction_aborted" : String) ≠ lockOrderMsg))
                  | (split at hr <;>
                      rw [← Option.some.inj hr] <;>
                      first
                        | exact (by decide :
                            ("write_lock_acquire_failed" : String) ≠ lockOrderMsg)
                        | exact (by decide :
                            ("transaction_aborted" : String) ≠ lockOrderMsg))
        · rw [if_neg h2] at hr
          cases hlk : tx.global_lock_dict.lookup (tname, (rowid : Int)) with
          | none =>
              rw [hlk] at hr
              replace hr :
                  some ((("write_lock_acquired" : String), true),
                    { tx with
                      global_lock_dict := tx.global_lock_dict ++
                        [((tname, (rowid : Int)),
                          { readers := 0, active_writer := true, requestor := none })],
                      write_lock_list_local :=
                        tx.write_lock_list_local ++ [(tname, (rowid : Int))] }) =
                    some r := hr
              rw [← Option.some.inj hr]
              exact (by decide : ("write_lock_acquired" : String) ≠ lockOrderMsg)
          | some lock =>
              rw [hlk] at hr
              rcases try_acquire_write_cases lock with hc | hc | hc <;>
                simp only [hc] at hr <;>
                split at hr <;>
                rw [← Option.some.inj hr] <;>
                first
                  | exact (by decide : ("write_lock_acquired" : String) ≠ lockOrderMsg)
                  | exact (by decide : ("write_lock_already_held" : String) ≠ lockOrderMsg)
                  | exact (by decide : ("read_lock_already_held" : String) ≠ lockOrderMsg)

/-- C6 (witness): reading ("T", 0) after `last_lock_id` advanced to
("T", 5) rolls the read-committed transaction back with the lock-order
message. -/
theorem C6_lock_order_rollback_witness :
    txC6.read "T" 0 = some ((lockOrderMsg, false, none), txC6.rollback) ∧
    txC6.rollback.status = .aborted :=
  (C6_lock_order_rollback txC6 "T" 0 []).1 rfl (by decide) (by decide) (Or.inl rfl)


/-- Python `List.lookup` over an association list: a hit on the key. -/
theorem lookup_cons_true {κ β : Type} [BEq κ] (k a : κ) (b : β)
    (tl : List (κ × β)) (h : (k == a) = true) :
    List.lookup k ((a, b) :: tl) = some b := by
  simp [List.lookup, h]

/-- Python `List.lookup` over an association list: a miss on the head. -/
theorem lookup_cons_false {κ β : Type} [BEq κ] (k a : κ) (b : β)
    (tl : List (κ × β)) (h : (k == a) = false) :
    List.lookup k ((a, b) :: tl) = List.lookup k tl := by
  simp [List.lookup, h]

/-- Adjusting the entry appended behind a key-free prefix is observable at
that key. -/
theorem lookup_assocAdjust_append {κ β : Type} [BEq κ] [LawfulBEq κ]
    (l : List (κ × β)) (k : κ) (v : β) (f : β → β)
    (h : l.lookup k = none) :
    (assocAdjust (l ++ [(k, v)]) k f).lookup k = some (f v) := by
  induction l with
  | nil =>
      simp only [List.nil_append, assocAdjust, List.map_cons, List.map_nil]
      rw [if_pos (beq_self_eq_true k)]
      rw [lookup_cons_true k k (f v) [] (beq_self_eq_true k)]
  | cons hd tl ih =>
      obtain ⟨a, b⟩ := hd
      cases hak : k == a
      · rw [lookup_cons_false k a b tl hak] at h
        have hka : (a == k) = false := by
          cases h0 : a == k
          · rfl
          · have h1 : a = k := eq_of_beq h0
            subst h1
            simp at hak
        simp only [List.cons_append, assocAdjust, List.map_cons]
        rw [if_neg (by simp [hka])]
        rw [lookup_cons_false k a b _ hak]
        exact ih h
      · rw [lookup_cons_true k a b tl hak] at h
        exact absurd h (by simp)

/-- Any read-committed read whose key sits below `last_lock_id` returns the
lock-order failure and the rolled-back state. -/
theorem sv_read_lock_order_fail (tx : SVLockBasedTransaction) (tname : String)
    (rowid : Nat) (t : Table (List Value))
    (hrun : tx.status = .running)
    (hlvl : tx.isolation_level = .read_committed)
    (ht : tx.table_dict.lookup tname = some t)
    (hlt : keyLtB (tname, (rowid : Int)) tx.last_lock_id = true) :
    tx.read tname rowid = some ((lockOrderMsg, false, none), tx.rollback) := by
  unfold SVLockBasedTransaction.read
  rw [if_neg (by simp [hrun]), if_neg (by simp [ht])]
  simp only [hlvl]
  unfold SVLockBasedTransaction.read_RC
  simp only [ht, Option.bind_eq_bind, Option.some_bind]
  unfold SVLockBasedTransaction.read_lock_acquire
  rw [if_pos hlt]
  rfl

/-- C10: under read committed a successful read releases its read lock
again (the local read-lock list is empty afterwards and the global lock
entry has no readers) but `last_lock_id` keeps the key just read; a
subsequent read of any lexicographically smaller key therefore rolls the
transaction back with the lock-order failure message even though the
transaction holds no locks at that moment. -/
theorem C10_read_committed_lock_order_persists (tx : SVLockBasedTransaction) (tname1 tname2 : String)
    (rowid1 rowid2 : Nat) (t1 : Table (List Value)) (row : List Value)
    (hrun : tx.status = .running)
    (hlvl : tx.isolation_level = .read_committed)
    (hrl : tx.read_lock_list_local = [])
    (hwl : tx.write_lock_list_local = [])
    (hglk : tx.global_lock_dict.lookup (tname1, (rowid1 : Int)) = none)
    (hge : keyLtB (tname1, (rowid1 : Int)) tx.last_lock_id = false)
    (htb : tx.table_dict.lookup tname1 = some t1)
    (hrow : (t1.get rowid1).getLast? = some row)
    (htb2 : (tx.table_dict.lookup tname2).isSome)
    (hlt : keyLtB (tname2, (rowid2 : Int)) (tname1, (rowid1 : Int)) = true) :
    ∃ tx2 : SVLockBasedTransaction,
      tx.read tname1 rowid1 = some (("row_found", true, some row), tx2) ∧
      tx2.read_lock_list_local = [] ∧
      tx2.write_lock_list_local = [] ∧
      tx2.global_lock_dict.lookup (tname1, (rowid1 : Int)) =
        some { readers := 0, active_writer := false, requestor := none } ∧
      tx2.last_lock_id = (tname1, (rowid1 : Int)) ∧
      tx2.status = .running ∧
      tx2.read tname2 rowid2 = some ((lockOrderMsg, false, none), tx2.rollback) ∧
      tx2.rollback.status = .aborted := by
  have hacq : tx.read_lock_acquire (tname1, (rowid1 : Int)) =
      (("read_lock_acquired", true),
        { tx with
          global_lock_dict := tx.global_lock_dict ++
            [((tname1, (rowid1 : Int)),
              { readers := 1, active_writer := false, requestor := none })],
          last_lock_id := (tname1, (rowid1 : Int)),
          read_lock_list_local :=
            tx.read_lock_list_local ++ [(tname1, (rowid1 : Int))] }) := by
    unfold SVLockBasedTransaction.read_lock_acquire
    rw [if_neg (by simp [hge]), if_neg (by simp [hrl]), if_neg (by simp [hwl]), hglk]
    rfl
  have h1 : tx.read tname1 rowid1 =
      some (("row_found", true, some row),
        { tx with
          global_lock_dict := assocAdjust
            (tx.global_lock_dict ++
              [((tname1, (rowid1 : Int)),
                { readers := 1, active_writer := false, requestor := none })])
            (tname1, (rowid1 : Int)) DummyRWLock.release_read_lock,
          last_lock_id := (tname1, (rowid1 : Int)),
          read_lock_list_local := [] }) := by
    unfold SVLockBasedTransaction.read
    rw [if_neg (by simp [hrun]), if_neg (by simp [htb])]
    simp only [hlvl]
    unfold SVLockBasedTransaction.read_RC
    simp only [htb, Option.bind_eq_bind, Option.some_bind, hacq, hrow]
    simp [hrl, hlvl]
  obtain ⟨t2, ht2⟩ := Option.isSome_iff_exists.mp htb2
  refine ⟨_, h1, rfl, hwl, ?_, rfl, hrun, ?_, ?_⟩
  · exact lookup_assocAdjust_append _ _ _ _ hglk
  · exact sv_read_lock_order_fail _ tname2 rowid2 t2 hrun hlvl ht2 hlt
  · simp [SVLockBasedTransaction.rollback, hrun]


/-- C10 (witness): the fresh transaction `txC10` reads row 1 successfully,
holds no locks afterwards, and its next read of row 0 aborts it with the
lock-order message. -/
theorem C10_read_committed_lock_order_persists_witness :
    ∃ tx2 : SVLockBasedTransaction,
      txC10.read "T" 1 = some (("row_found", true, some [Value.int 1, Value.int 20]), tx2) ∧
      tx2.read_lock_list_local = [] ∧
      tx2.write_lock_list_local = [] ∧
      tx2.global_lock_dict.lookup ("T", (1 : Int)) =
        some { readers := 0, active_writer := false, requestor := none } ∧
      tx2.last_lock_id = ("T", (1 : Int)) ∧
      tx2.status = .running ∧
      tx2.read "T" 0 = some ((lockOrderMsg, false, none), tx2.rollback) ∧
      tx2.rollback.status = .aborted :=
  C10_read_committed_lock_order_persists txC10 "T" "T" 1 0
    { attrs := ["row_id", "bal"],
      tuples := [[[Value.int 0, Value.int 10]], [[Value.int 1, Value.int 20]]] }
    [Value.int 1, Value.int 20]
    rfl rfl rfl rfl rfl (by decide) rfl (by decide) (by decide) (by decide)


/-- Membership in the ordered-pair enumeration of the double loop is
exactly an in-order decomposition of the list. -/
theorem mem_orderedPairs {α : Type} {x y : α} {l : List α} :
    (x, y) ∈ orderedPairs l ↔ ∃ l1 l2 l3, l = l1 ++ x :: l2 ++ y :: l3 := by
  induction l with
  | nil =>
      constructor
      · intro h; simp [orderedPairs] at h
      · rintro ⟨l1, l2, l3, h⟩; exact absurd h (by simp)
  | cons a rest ih =>
      simp only [orderedPairs, List.mem_append, List.mem_map]
      constructor
      · rintro (⟨b, hb, heq⟩ | h)
        · cases heq
          obtain ⟨s, t, rfl⟩ := List.append_of_mem hb
          exact ⟨[], s, t, by simp⟩
        · obtain ⟨l1, l2, l3, rfl⟩ := ih.mp h
          exact ⟨a :: l1, l2, l3, rfl⟩
      · rintro ⟨l1, l2, l3, hl⟩
        cases l1 with
        | nil =>
            rw [List.nil_append, List.cons_append] at hl
            injection hl with h1 h2
            left
            exact ⟨y, by simp [h2], by simp [h1]⟩
        | cons c l1' =>
            rw [List.cons_append] at hl
            injection hl with h1 h2
            right
            exact ih.mpr ⟨l1', l2, l3, h2⟩

/-- A two-element sublist yields an in-order decomposition. -/
theorem sublist_pair_decomp {α : Type} {x y : α} {l : List α}
    (h : List.Sublist [x, y] l) : ∃ l1 l2 l3, l = l1 ++ x :: l2 ++ y :: l3 := by
  rw [List.cons_sublist_iff] at h
  obtain ⟨r1, r2, hl, hx, hy⟩ := h
  obtain ⟨s, t, rfl⟩ := List.append_of_mem hx
  obtain ⟨u, v, rfl⟩ := List.append_of_mem (List.singleton_sublist.mp hy)
  exact ⟨s, t ++ u, v, by simp [hl]⟩

/-- An in-order decomposition yields a two-element sublist. -/
theorem decomp_sublist_pair {α : Type} {x y : α} {l l1 l2 l3 : List α}
    (h : l = l1 ++ x :: l2 ++ y :: l3) : List.Sublist [x, y] l := by
  subst h
  have h1 : List.Sublist [x] (x :: l2) := List.cons_sublist_cons.mpr (List.nil_sublist l2)
  have h2 : List.Sublist [y] (y :: l3) := List.cons_sublist_cons.mpr (List.nil_sublist l3)
  exact (h1.trans (List.sublist_append_right l1 (x :: l2))).append h2

/-- `filter` preserves an in-order decomposition whose marked elements
satisfy the predicate. -/
theorem filter_decomp {α : Type} (p : α → Bool) {x y : α} (l1 l2 l3 : List α)
    (hx : p x = true) (hy : p y = true) :
    List.filter p (l1 ++ x :: l2 ++ y :: l3) =
      l1.filter p ++ x :: l2.filter p ++ y :: l3.filter p := by
  simp [List.filter_append, List.filter_cons, hx, hy]

/-- Deduplication keeps exactly the elements of the list. -/
theorem mem_dedupKeepFirstGen {κ : Type} [DecidableEq κ] {k : κ} {l : List κ} :
    k ∈ dedupKeepFirstGen l ↔ k ∈ l := by
  induction l with
  | nil => simp [dedupKeepFirstGen]
  | cons a rest ih =>
      simp only [dedupKeepFirstGen, List.mem_cons, List.mem_filter]
      constructor
      · rintro (rfl | ⟨hmem, _⟩)
        · exact .inl rfl
        · exact .inr (ih.mp hmem)
      · rintro (rfl | hmem)
        · exact .inl rfl
        · by_cases hk : k = a
          · exact .inl hk
          · exact .inr ⟨ih.mpr hmem, by simp [hk]⟩

/-- C8 (amended): the precedence-graph utility produces the edge T1 → T2
if and only if T1 and T2 are distinct transactions with accesses of the
same row id occurring in this order in the schedule — regardless of the
access modes (both the read-then-write branch and the catch-all branch of
the source add the same edge, so read-read pairs also produce it). -/
theorem C8_precedence_edge_iff (sched : List (String × PStmt)) (t1 t2 : String) :
    (t1, t2) ∈ precedenceEdges sched ↔
      ∃ a b : Access, ∃ l1 l2 l3 : List Access,
        accessesOf sched = l1 ++ a :: l2 ++ b :: l3 ∧
        a.rid = b.rid ∧ a.tx = t1 ∧ b.tx = t2 ∧ t1 ≠ t2 := by
  constructor
  · intro h
    simp only [precedenceEdges] at h
    obtain ⟨k, hk, hpair⟩ := List.mem_flatMap.mp h
    obtain ⟨ab, habmem, habeq⟩ := List.mem_filterMap.mp hpair
    rw [Option.ite_none_right_eq_some] at habeq
    obtain ⟨hne, heq⟩ := habeq
    obtain ⟨a, b⟩ := ab
    obtain ⟨htx1, htx2⟩ := Prod.mk.injEq .. ▸ Option.some.inj heq
    obtain ⟨m1, m2, m3, hm⟩ := mem_orderedPairs.mp habmem
    have ha : a ∈ List.filter (fun x => decide (x.rid = k)) (accessesOf sched) := by
      rw [hm]; simp
    have hb : b ∈ List.filter (fun x => decide (x.rid = k)) (accessesOf sched) := by
      rw [hm]; simp
    have hark : a.rid = k := by simpa using List.of_mem_filter ha
    have hbrk : b.rid = k := by simpa using List.of_mem_filter hb
    have hsub : List.Sublist [a, b] (accessesOf sched) :=
      (decomp_sublist_pair hm).trans (List.filter_sublist _)
    obtain ⟨l1, l2, l3, hl⟩ := sublist_pair_decomp hsub
    refine ⟨a, b, l1, l2, l3, hl, hark.trans hbrk.symm, htx1, htx2, ?_⟩
    rw [← htx1, ← htx2]
    simpa using hne
  · rintro ⟨a, b, l1, l2, l3, hacc, hrid, rfl, rfl, hne⟩
    simp only [precedenceEdges]
    rw [List.mem_flatMap]
    refine ⟨a.rid, ?_, ?_⟩
    · exact mem_dedupKeepFirstGen.mpr
        (List.mem_map.mpr ⟨a, by rw [hacc]; simp, rfl⟩)
    · rw [List.mem_filterMap]
      refine ⟨(a, b), ?_, ?_⟩
      · apply mem_orderedPairs.mpr
        refine ⟨List.filter (fun x => decide (x.rid = a.rid)) l1,
                List.filter (fun x => decide (x.rid = a.rid)) l2,
                List.filter (fun x => decide (x.rid = a.rid)) l3, ?_⟩
        rw [hacc, filter_decomp (fun x => decide (x.rid = a.rid)) l1 l2 l3
              (by simp) (by simp [hrid])]
      · rw [Option.ite_none_right_eq_some]
        exact ⟨by simpa using hne, rfl⟩



/-- The running-minimum loop with a candidate already picked: the result is
the old candidate when nothing beats the bound, otherwise the earliest
strict minimum below the bound. -/
theorem pickZ_some_char (l : List (Nat × Nat)) (m j k : Nat) :
    pickZ l m (some j) = some k ↔
      (k = j ∧ ∀ pr ∈ l, m ≤ pr.2) ∨
      ∃ l1 s l2, l = l1 ++ (k, s) :: l2 ∧ s < m ∧
        (∀ pr ∈ l1, s < pr.2) ∧ (∀ pr ∈ l2, s ≤ pr.2) := by
  induction l generalizing m j with
  | nil =>
      constructor
      · intro h
        exact .inl ⟨(Option.some.inj h).symm, by simp⟩
      · rintro (⟨rfl, h⟩ | ⟨l1, s, l2, hl, h⟩)
        · rfl
        · exact absurd hl (by simp)
  | cons pr rest ih =>
      obtain ⟨i, s0⟩ := pr
      by_cases h0 : s0 < m
      · rw [show pickZ ((i, s0) :: rest) m (some j) = pickZ rest s0 (some i) from by
          simp [pickZ, h0]]
        rw [ih]
        constructor
        · rintro (⟨rfl, hall⟩ | ⟨l1, s, l2, rfl, hs, hl1, hl2⟩)
          · exact .inr ⟨[], s0, rest, rfl, h0, by simp, hall⟩
          · refine .inr ⟨(i, s0) :: l1, s, l2, rfl, lt_trans hs h0, ?_, hl2⟩
            intro pr hpr
            rcases List.mem_cons.mp hpr with rfl | hpr
            · exact hs
            · exact hl1 pr hpr
        · rintro (⟨rfl, hall⟩ | ⟨l1, s, l2, hl, hs, hl1, hl2⟩)
          · exact absurd (hall (i, s0) (List.mem_cons_self _ _)) (by omega)
          · cases l1 with
            | nil =>
                rw [List.nil_append] at hl
                injection hl with h1 h2
                cases h1
                exact .inl ⟨rfl, h2 ▸ hl2⟩
            | cons q l1' =>
                rw [List.cons_append] at hl
                injection hl with h1 h2
                refine .inr ⟨l1', s, l2, h2, ?_, fun pr hpr => hl1 pr (by simp [hpr]), hl2⟩
                have hq := hl1 q (List.mem_cons_self _ _)
                rw [← h1] at hq
                exact hq
      · rw [show pickZ ((i, s0) :: rest) m (some j) = pickZ rest m (some j) from by
          simp [pickZ, h0]]
        rw [ih]
        constructor
        · rintro (⟨rfl, hall⟩ | ⟨l1, s, l2, rfl, hs, hl1, hl2⟩)
          · refine .inl ⟨rfl, ?_⟩
            intro pr hpr
            rcases List.mem_cons.mp hpr with rfl | hpr
            · omega
            · exact hall pr hpr
          · refine .inr ⟨(i, s0) :: l1, s, l2, rfl, hs, ?_, hl2⟩
            intro pr hpr
            rcases List.mem_cons.mp hpr with rfl | hpr
            · omega
            · exact hl1 pr hpr
        · rintro (⟨rfl, hall⟩ | ⟨l1, s, l2, hl, hs, hl1, hl2⟩)
          · exact .inl ⟨rfl, fun pr hpr => hall pr (by simp [hpr])⟩
          · cases l1 with
            | nil =>
                rw [List.nil_append] at hl
                injection hl with h1 h2
                cases h1
                exact absurd hs h0
            | cons q l1' =>
                rw [List.cons_append] at hl
                injection hl with h1 h2
                exact .inr ⟨l1', s, l2, h2, hs, fun pr hpr => hl1 pr (by simp [hpr]), hl2⟩

/-- The running-minimum loop starting empty returns position `k` exactly
when `k` carries the earliest minimum strictly below the initial bound. -/
theorem pickZ_none_char (l : List (Nat × Nat)) (m k : Nat) :
    pickZ l m none = some k ↔
      ∃ l1 s l2, l = l1 ++ (k, s) :: l2 ∧ s < m ∧
        (∀ pr ∈ l1, s < pr.2) ∧ (∀ pr ∈ l2, s ≤ pr.2) := by
  induction l generalizing m with
  | nil =>
      constructor
      · intro h
        simp [pickZ] at h
      · rintro ⟨l1, s, l2, hl, h⟩
        exact absurd hl (by simp)
  | cons pr rest ih =>
      obtain ⟨i, s0⟩ := pr
      by_cases h0 : s0 < m
      · rw [show pickZ ((i, s0) :: rest) m none = pickZ rest s0 (some i) from by
          simp [pickZ, h0]]
        rw [pickZ_some_char]
        constructor
        · rintro (⟨rfl, hall⟩ | ⟨l1, s, l2, rfl, hs, hl1, hl2⟩)
          · exact ⟨[], s0, rest, rfl, h0, by simp, hall⟩
          · refine ⟨(i, s0) :: l1, s, l2, rfl, lt_trans hs h0, ?_, hl2⟩
            intro pr hpr
            rcases List.mem_cons.mp hpr with rfl | hpr
            · exact hs
            · exact hl1 pr hpr
        · rintro ⟨l1, s, l2, hl, hs, hl1, hl2⟩
          cases l1 with
          | nil =>
              rw [List.nil_append] at hl
              injection hl with h1 h2
              cases h1
              exact .inl ⟨rfl, h2 ▸ hl2⟩
          | cons q l1' =>
              rw [List.cons_append] at hl
              injection hl with h1 h2
              refine .inr ⟨l1', s, l2, h2, ?_, fun pr hpr => hl1 pr (by simp [hpr]), hl2⟩
              have hq := hl1 q (List.mem_cons_self _ _)
              rw [← h1] at hq
              exact hq
      · rw [show pickZ ((i, s0) :: rest) m none = pickZ rest m none from by
          simp [pickZ, h0]]
        rw [ih]
        constructor
        · rintro ⟨l1, s, l2, rfl, hs, hl1, hl2⟩
          refine ⟨(i, s0) :: l1, s, l2, rfl, hs, ?_, hl2⟩
          intro pr hpr
          rcases List.mem_cons.mp hpr with rfl | hpr
          · omega
          · exact hl1 pr hpr
        · rintro ⟨l1, s, l2, hl, hs, hl1, hl2⟩
          cases l1 with
          | nil =>
              rw [List.nil_append] at hl
              injection hl with h1 h2
              cases h1
              exact absurd hs h0
          | cons q l1' =>
              rw [List.cons_append] at hl
              injection hl with h1 h2
              exact ⟨l1', s, l2, h2, hs, fun pr hpr => hl1 pr (by simp [hpr]), hl2⟩

/-- The estimation loop of `CSI_modify` agrees with the specification-side
running minimum over the precomputed estimates. -/
theorem pickLoop_pickZ (rel : Relation) :
    ∀ (cands : List (Nat × Pred)) (szs : List Nat) (m : Nat) (acc : Option Nat),
      mapOpt (fun ip => estSize rel ip.2) cands = some szs →
      pickLoop rel cands m acc = some (pickZ ((cands.map Prod.fst).zip szs) m acc) := by
  intro cands
  induction cands with
  | nil =>
      intro szs m acc h
      simp only [mapOpt, Option.some.injEq] at h
      subst h
      simp [pickLoop, pickZ]
  | cons c rest ih =>
      intro szs m acc h
      obtain ⟨i, p⟩ := c
      cases hes : estSize rel p with
      | none => simp [mapOpt, hes] at h
      | some s =>
          cases hrest : mapOpt (fun ip => estSize rel ip.2) rest with
          | none => simp [mapOpt, hes, hrest] at h
          | some srest =>
              have hszs : szs = s :: srest := by
                simp [mapOpt, hes, hrest] at h
                exact h.symm
              subst hszs
              by_cases h0 : s < m
              · rw [show pickLoop rel ((i, p) :: rest) m acc = pickLoop rel rest s (some i)
                    from by simp [pickLoop, hes, h0]]
                rw [show pickZ ((((i, p) :: rest).map Prod.fst).zip (s :: srest)) m acc =
                      pickZ ((rest.map Prod.fst).zip srest) s (some i) from by
                  simp [pickZ, List.zip, h0]]
                exact ih srest s (some i) hrest
              · rw [show pickLoop rel ((i, p) :: rest) m acc = pickLoop rel rest m acc
                    from by simp [pickLoop, hes, h0]]
                rw [show pickZ ((((i, p) :: rest).map Prod.fst).zip (s :: srest)) m acc =
                      pickZ ((rest.map Prod.fst).zip srest) m acc from by
                  simp [pickZ, List.zip, h0]]
                exact ih srest m acc hrest

/-- C9 (amended): (1) the compiler matches a logical selection exactly when
its own predicate references at most one attribute, only projections and
selections stand between it and a leaf, and the leaf indexes a referenced
attribute; (2) the candidates for the index-based slot are all collected
selections with a leaf index on some referenced attribute — their
predicates may reference several attributes; (3) the running minimum picks
the earliest candidate whose estimated size is minimal and strictly below
the leaf cardinality; (4) the replacement is the picked candidate as an
index-based selection over the leaf with every other collected selection
stacked above as scan-based (projections dropped), and the whole rewrite
fails (Python: `list.index(None)` raising ValueError) when no estimate is
strictly below the leaf cardinality. -/
theorem C9_compile_selection_index_characterization :
    (∀ p c, CSI_match (Op.selection p c) = true ↔
        (attrsInPred p c.attrNames).length ≤ 1 ∧
        ∃ rel, pathOkToLeaf c = some rel ∧
          (attrsInPred p c.attrNames).any (fun a => a ∈ rel.indexedAttrs) = true) ∧
    (∀ rel sels i q, (i, q) ∈ candidatesOf rel sels ↔
        ∃ ns, sels[i]? = some (q, ns) ∧
          (attrsInPred q ns).any (fun a => a ∈ rel.indexedAttrs) = true) ∧
    (∀ (l : List (Nat × Nat)) (m k : Nat),
        pickZ l m none = some k ↔
        ∃ l1 s l2, l = l1 ++ (k, s) :: l2 ∧ s < m ∧
          (∀ pr ∈ l1, s < pr.2) ∧ (∀ pr ∈ l2, s ≤ pr.2)) ∧
    (∀ p c selsTail rel szs,
        selsAndLeaf c = some (selsTail, rel) →
        mapOpt (fun ip => estSize rel ip.2)
            (candidatesOf rel ((p, c.attrNames) :: selsTail)) = some szs →
        candidatesOf rel ((p, c.attrNames) :: selsTail) ≠ [] →
        CSI_modify (Op.selection p c) =
          (pickZ
              (((candidatesOf rel ((p, c.attrNames) :: selsTail)).map Prod.fst).zip szs)
              rel.tuples.length none).bind
            (fun k => (((p, c.attrNames) :: selsTail)[k]?).map
              (fun pp => chainOf ((p, c.attrNames) :: selsTail) k rel))) := by
  refine ⟨?_, ?_, ?_, ?_⟩
  · intro p c
    simp only [CSI_match]
    by_cases hlen : (attrsInPred p c.attrNames).length > 1
    · rw [if_pos hlen]
      constructor
      · intro h
        cases h
      · rintro ⟨h1, h⟩
        omega
    · rw [if_neg hlen]
      cases hp : pathOkToLeaf c with
      | none =>
          constructor
          · intro h
            cases h
          · rintro ⟨h1, rel, hrel, h⟩
            cases hrel
      | some rel =>
          constructor
          · intro h
            exact ⟨by omega, rel, rfl, h⟩
          · rintro ⟨h1, rel2, hrel, hany⟩
            cases hrel
            exact hany
  · intro rel sels i q
    simp only [candidatesOf, List.mem_map, List.mem_filter]
    constructor
    · rintro ⟨⟨i2, qq, ns⟩, ⟨hmem, hcond⟩, heq⟩
      injection heq with hii hqq
      subst hii
      subst hqq
      exact ⟨ns, List.mk_mem_enum_iff_getElem?.mp hmem, hcond⟩
    · rintro ⟨ns, hget, hany⟩
      exact ⟨(i, (q, ns)), ⟨List.mk_mem_enum_iff_getElem?.mpr hget, hany⟩, rfl⟩
  · intro l m k
    exact pickZ_none_char l m k
  · intro p c selsTail rel szs hsl hsz hcne
    simp only [CSI_modify, hsl, Option.bind_eq_bind, Option.some_bind]
    rw [if_neg hcne]
    rw [pickLoop_pickZ rel _ szs _ none hsz]
    simp only [Option.some_bind]
    cases pickZ (((candidatesOf rel ((p, c.attrNames) :: selsTail)).map Prod.fst).zip szs)
        rel.tuples.length none with
    | none => rfl
    | some k =>
        cases hk : ((p, c.attrNames) :: selsTail)[k]? with
        | none => simp [hk]
        | some pp =>
            simp only [hk, Option.some_bind, Option.map_some, Option.some.injEq]
            simp [chainOf, List.getD_eq_getElem?_getD, hk]


/-- C9 (witness): on `plnC9` the collected selections are the two
predicates over Q; the running minimum over the estimates [1, 0] picks
position 1 (the two-attribute predicate), matching `CSI_modify`. -/
theorem C9_compile_selection_index_characterization_witness :
    CSI_modify (Op.selection predA5 (Op.selection predBC (Op.leaf relQ))) =
      (pickZ
          (((candidatesOf relQ
              [(predA5, ["a", "b", "c"]), (predBC, ["a", "b", "c"])]).map
            Prod.fst).zip [1, 0])
          relQ.tuples.length none).bind
        (fun k =>
          (([(predA5, ["a", "b", "c"]),
             (predBC, ["a", "b", "c"])] : List (Pred × List String))[k]?).map
            (fun pp =>
              chainOf [(predA5, ["a", "b", "c"]), (predBC, ["a", "b", "c"])] k relQ)) :=
  C9_compile_selection_index_characterization.2.2.2 predA5
    (Op.selection predBC (Op.leaf relQ)) [(predBC, ["a", "b", "c"])] relQ [1, 0]
    rfl (by decide) (by decide)

end Spec2Proof
